import Mathlib

/-
  Verification development for the Annotation Burning Engine of the
  OpenAssess backend (src/backend/app/services/pdf_annotation_service.py).

  The Python service is embedded shallowly over ℚ: every numeric value of
  the source (Python floats) is modelled as an exact rational, list state
  is passed explicitly, and code that can raise (KeyError / ValueError /
  AttributeError) is modelled with Except.  Definitions follow the source
  function by function; deviations forced by the embedding are noted in
  comments next to the definition they concern.
-/

set_option maxRecDepth 10000

namespace OpenAssess

/-- Tolerance 1e-12 used by the segment-distance routine and the final
epsilon checks of the closest-point computation. -/
def epsD : ℚ := 1 / 1000000000000

/-- Tolerance 1e-6 used by `filter_line_by_eraser_px` when checking that two
consecutive kept pieces share an endpoint. -/
def epsJoin : ℚ := 1 / 1000000

/-- Dot product of two 2-D vectors (source: `dot`). -/
def dotP (ax ay bx b2 : ℚ) : ℚ := ax * bx + ay * b2

/-- Clamp to the unit interval (source: `clamp01`). -/
def clamp01 (t : ℚ) : ℚ := if t < 0 then 0 else if t > 1 then 1 else t

/-- Axis-aligned bounding boxes are stored as (minx, miny, maxx, maxy). -/
abbrev Aabb := ℚ × ℚ × ℚ × ℚ

/-- Inflate an AABB by radius r (source: `aabb_inflate`). -/
def aabbInflate (a : Aabb) (r : ℚ) : Aabb :=
  (a.1 - r, a.2.1 - r, a.2.2.1 + r, a.2.2.2 + r)

/-- AABB of the segment (px,py)-(qx,qy) (source: `seg_aabb`). -/
def segAabb (px py qx qy : ℚ) : Aabb :=
  (min px qx, min py qy, max px qx, max py qy)

/-- Overlap test of two AABBs (source: `aabb_overlap`). -/
def aabbOverlapB (a b : Aabb) : Bool :=
  !(decide (a.2.2.1 < b.1) || decide (b.2.2.1 < a.1) ||
    decide (a.2.2.2 < b.2.1) || decide (b.2.2.2 < a.2.1))

/-- Stage 1 of the closest-parameter computation of `dist2_seg_to_seg`: the
`if D < 1e-12` near-parallel branch and the clamping of sN into [0, sD],
producing (sN, sD, tN, tD). -/
def paramStage1 (a b c d e D : ℚ) : ℚ × ℚ × ℚ × ℚ :=
  if D < epsD then (0, 1, e, c)
  else if b * e - c * d < 0 then (0, D, e, c)
  else if b * e - c * d > D then (D, D, e + b, c)
  else (b * e - c * d, D, a * e - b * d, D)

/-- Stage 2 of the closest-parameter computation: the clamping of tN into
[0, tD] with the corresponding update of sN and sD. -/
def paramStage2 (a b d : ℚ) (q : ℚ × ℚ × ℚ × ℚ) : ℚ × ℚ × ℚ × ℚ :=
  if q.2.2.1 < 0 then
    if -d < 0 then (0, q.2.1, 0, q.2.2.2)
    else if -d > a then (q.2.1, q.2.1, 0, q.2.2.2)
    else (-d, a, 0, q.2.2.2)
  else if q.2.2.1 > q.2.2.2 then
    if -d + b < 0 then (0, q.2.1, q.2.2.2, q.2.2.2)
    else if -d + b > a then (q.2.1, q.2.1, q.2.2.2, q.2.2.2)
    else (-d + b, a, q.2.2.2, q.2.2.2)
  else (q.1, q.2.1, q.2.2.1, q.2.2.2)

/-- The final clamped parameter: `0.0 if abs(n) < 1e-12 else n / d`. -/
def clampFrac (n d : ℚ) : ℚ := if |n| < epsD then 0 else n / d

/-- The closest-parameter computation inside `dist2_seg_to_seg` (Ericson's
algorithm).  The source computes sN, sD, tN, tD imperatively and then the
two clamped parameters sc and tc; the same branch structure is staged here.
Argument order: u = B - A, v = D - C, w = A - C. -/
def closestParams (ux uy vx vy wx wy : ℚ) : ℚ × ℚ :=
  let a := dotP ux uy ux uy
  let b := dotP ux uy vx vy
  let c := dotP vx vy vx vy
  let d := dotP ux uy wx wy
  let e := dotP vx vy wx wy
  let D := a * c - b * b
  let q2 := paramStage2 a b d (paramStage1 a b c d e D)
  (clampFrac q2.1 q2.2.1, clampFrac q2.2.2.1 q2.2.2.2)

/-- Minimum squared distance between segments (px,py)-(qx,qy) and
(rx,ry)-(sx,sy) (source: `dist2_seg_to_seg`; the source names the endpoints
A=(ax,ay), B=(bx,by), C=(cx,cy), D=(dx,dy)). -/
def dist2SegToSeg (px py qx qy rx ry sx sy : ℚ) : ℚ :=
  let ux := qx - px
  let uy := qy - py
  let vx := sx - rx
  let vy := sy - ry
  let wx := px - rx
  let wy := py - ry
  let st := closestParams ux uy vx vy wx wy
  let cxA := px + st.1 * ux
  let cyA := py + st.1 * uy
  let cxB := rx + st.2 * vx
  let cyB := ry + st.2 * vy
  (cxA - cxB) * (cxA - cxB) + (cyA - cyB) * (cyA - cyB)

/-- A capsule: an eraser-stroke segment thickened by radius r.  The source
stores the endpoints as scalars ax, ay, bx, by; here they are the point
pairs p and q. -/
structure Capsule where
  p : ℚ × ℚ
  q : ℚ × ℚ
  r : ℚ
deriving DecidableEq, Repr

/-- The precomputed inflated AABB a capsule carries (source: `Capsule.__init__`
stores `aabb_inflate(seg_aabb(ax, ay, bx, by), r)`). -/
def Capsule.aabb (c : Capsule) : Aabb :=
  aabbInflate (segAabb c.p.1 c.p.2 c.q.1 c.q.2) c.r

/-- Placeholder capsule used for the (never reached) out-of-range list
accesses of grid bucket indices. -/
def dummyCapsule : Capsule := ⟨(0, 0), (0, 0), 0⟩

/-- Build capsules from the flat eraser polyline (source: `build_capsules`,
`for i in range(0, len(pts) - 3, 2)`). -/
def buildCapsules : List ℚ → ℚ → List Capsule
  | ax :: ay :: bx :: b2 :: rest, r => ⟨(ax, ay), (bx, b2), r⟩ :: buildCapsules (bx :: b2 :: rest) r
  | _, _ => []

/-- Floor of a rational, written out as integer division so that it
evaluates inside the kernel (`Rat.floor_eq_div` connects it to `Int.floor`). -/
def ratFloor (x : ℚ) : ℤ := x.num / (x.den : ℤ)

/-- Python `int()` truncation toward zero, applied to a rational. -/
def ratTrunc (x : ℚ) : ℤ := if 0 ≤ x then ratFloor x else -ratFloor (-x)

/-- The uniform spatial grid (source: class `UniformGrid`); `buckets` holds,
per cell, the capsule indices inserted into that cell, in insertion order. -/
structure UniformGrid where
  minx : ℚ
  miny : ℚ
  cell : ℚ
  nx : ℕ
  ny : ℕ
  buckets : List (List ℕ)
deriving DecidableEq, Repr

/-- Grid construction (source: `UniformGrid.__init__`):
`nx = max(1, int((maxx - minx) / cell))`, likewise ny, empty buckets. -/
def gridInit (minx miny maxx maxy cell : ℚ) : UniformGrid :=
  let nx := (max 1 (ratTrunc ((maxx - minx) / cell))).toNat
  let ny := (max 1 (ratTrunc ((maxy - miny) / cell))).toNat
  ⟨minx, miny, cell, nx, ny, List.replicate (nx * ny) []⟩

/-- Clamp a raw cell index into [0, n-1] (the two clamping lines of
`UniformGrid._ixiy`). -/
def clampIdx (i : ℤ) (n : ℕ) : ℕ :=
  if i < 0 then 0 else if (n : ℤ) ≤ i then n - 1 else i.toNat

/-- Column index of an x coordinate (source: `_ixiy`, ix part). -/
def gridIx (g : UniformGrid) (x : ℚ) : ℕ :=
  clampIdx (ratTrunc ((x - g.minx) / g.cell)) g.nx

/-- Row index of a y coordinate (source: `_ixiy`, iy part). -/
def gridIy (g : UniformGrid) (y : ℚ) : ℕ :=
  clampIdx (ratTrunc ((y - g.miny) / g.cell)) g.ny

/-- Append v to the i-th inner list (the Python `self.buckets[...].append(idx)`;
indices are always in range when this is used, see `bucketIdxLt`). -/
def modifyAt : List (List ℕ) → ℕ → ℕ → List (List ℕ)
  | [], _, _ => []
  | x :: xs, 0, v => (x ++ [v]) :: xs
  | x :: xs, n + 1, v => x :: modifyAt xs n v

/-- Flat bucket indices of all cells overlapped by an AABB, in the traversal
order of the source (outer loop over ix, inner loop over iy). -/
def cellIndicesOf (g : UniformGrid) (a : Aabb) : List ℕ :=
  let ix0 := gridIx g a.1
  let iy0 := gridIy g a.2.1
  let ix1 := gridIx g a.2.2.1
  let iy1 := gridIy g a.2.2.2
  (List.range' ix0 (ix1 + 1 - ix0)).flatMap fun ix =>
    (List.range' iy0 (iy1 + 1 - iy0)).map fun iy => iy * g.nx + ix

/-- Insert a capsule index into every overlapped cell (source:
`insert_capsule`). -/
def insertCapsule (g : UniformGrid) (idx : ℕ) (a : Aabb) : UniformGrid :=
  { g with buckets := (cellIndicesOf g a).foldl (fun bs ci => modifyAt bs ci idx) g.buckets }

/-- Bucket lookup; in the source an out-of-range index would raise, but all
indices produced by `cellIndicesOf` are in range. -/
def bucketAt (g : UniformGrid) (ci : ℕ) : List ℕ := g.buckets.getD ci []

/-- Keep the first occurrence of every element (the `seen` set of
`candidates_for_aabb`). -/
def dedupAux : List ℕ → List ℕ → List ℕ
  | _, [] => []
  | seen, x :: xs => if x ∈ seen then dedupAux seen xs else x :: dedupAux (x :: seen) xs

/-- Deduplicated candidate capsule indices for an AABB query (source:
`candidates_for_aabb`). -/
def candidatesForAabb (g : UniformGrid) (a : Aabb) : List ℕ :=
  dedupAux [] ((cellIndicesOf g a).flatMap fun ci => bucketAt g ci)

/-- Squared distance from a segment to a capsule's centerline, minus the
squared radius (source: `seg_capsule_dist2`); nonpositive means hit. -/
def segCapsuleDist2 (px py qx qy : ℚ) (cap : Capsule) : ℚ :=
  dist2SegToSeg px py qx qy cap.p.1 cap.p.2 cap.q.1 cap.q.2 - cap.r * cap.r

/-- Largest capsule radius, 0 when there are none (the
`max(c.r for c in capsules) if capsules else 0.0` expression). -/
def maxR : List Capsule → ℚ
  | [] => 0
  | c :: cs => cs.foldl (fun m k => max m k.r) c.r

/-- Does the segment hit any capsule (source: `seg_hits_any_capsule`)? -/
def segHitsAnyCapsule (px py qx qy : ℚ) (caps : List Capsule) (g : UniformGrid) : Bool :=
  let a := aabbInflate (segAabb px py qx qy) (maxR caps)
  (candidatesForAabb g a).any fun idx =>
    let cap := caps.getD idx dummyCapsule
    aabbOverlapB a cap.aabb && decide (segCapsuleDist2 px py qx qy cap ≤ 0)

/-- The candidate scan of `seg_distance2_to_eraser`: running minimum with
early return once the minimum is nonpositive.  `none` models the initial
`float("inf")`. -/
def segdGo (px py qx qy : ℚ) (caps : List Capsule) (a : Aabb) :
    List ℕ → Option ℚ → Option ℚ
  | [], best => best
  | idx :: rest, best =>
    let cap := caps.getD idx dummyCapsule
    if aabbOverlapB a cap.aabb then
      let v := segCapsuleDist2 px py qx qy cap
      let best2 := match best with
        | none => v
        | some b0 => min b0 v
      if best2 ≤ 0 then some best2 else segdGo px py qx qy caps a rest (some best2)
    else segdGo px py qx qy caps a rest best

/-- Minimum (distance² - r²) over the grid candidates (source:
`seg_distance2_to_eraser`); `none` is the untouched `float("inf")`. -/
def segDistance2ToEraser (px py qx qy : ℚ) (caps : List Capsule) (g : UniformGrid) :
    Option ℚ :=
  let a := aabbInflate (segAabb px py qx qy) (maxR caps)
  segdGo px py qx qy caps a (candidatesForAabb g a) none

/-- The `> 0.0` test on the result of `seg_distance2_to_eraser` (true on the
infinite initial value). -/
def posOpt : Option ℚ → Bool
  | none => true
  | some v => decide (0 < v)

/-- Degenerate point-inside-eraser test (source: local `inside_point` in
`split_segment_against_eraser`: `seg_distance2_to_eraser(x,y,x,y,...) <= 0`). -/
def insidePoint (caps : List Capsule) (g : UniformGrid) (pt : ℚ × ℚ) : Bool :=
  !posOpt (segDistance2ToEraser pt.1 pt.2 pt.1 pt.2 caps g)

/-- Point at parameter t on the segment a-b (the `ax + t * (bx - ax)` lines). -/
def lerp (a b : ℚ × ℚ) (t : ℚ) : ℚ × ℚ :=
  (a.1 + t * (b.1 - a.1), a.2 + t * (b.2 - a.2))

/-- The bisection loop of `bisect_boundary`: n iterations narrowing [lo, hi]
by the midpoint's inside/outside status. -/
def bisectLoop (caps : List Capsule) (g : UniformGrid) (a b : ℚ × ℚ) :
    ℕ → ℚ → ℚ → ℚ × ℚ
  | 0, lo, hi => (lo, hi)
  | n + 1, lo, hi =>
    if insidePoint caps g (lerp a b ((lo + hi) / 2)) then
      bisectLoop caps g a b n lo ((lo + hi) / 2)
    else bisectLoop caps g a b n ((lo + hi) / 2) hi

/-- Boundary localization (source: local `bisect_boundary`): normalize so the
first endpoint is outside and the second inside, bisect, and return the
point at the final hi parameter. -/
def bisectBoundary (caps : List Capsule) (g : UniformGrid) (a b : ℚ × ℚ)
    (maxIter : ℕ) : ℚ × ℚ :=
  let pr := if insidePoint caps g a && !insidePoint caps g b then (b, a) else (a, b)
  let lh := bisectLoop caps g pr.1 pr.2 maxIter 0 1
  lerp pr.1 pr.2 lh.2

/-- Split one segment against the eraser capsules (source:
`split_segment_against_eraser`; the unused midpoint computation of the
source, lines 349-350, is dead code and not modelled). -/
def splitSegmentAgainstEraser (p0 p1 : ℚ × ℚ) (caps : List Capsule)
    (g : UniformGrid) (maxIter : ℕ) : List ((ℚ × ℚ) × (ℚ × ℚ)) :=
  if posOpt (segDistance2ToEraser p0.1 p0.2 p1.1 p1.2 caps g) then [(p0, p1)]
  else
    let aIn := insidePoint caps g p0
    let bIn := insidePoint caps g p1
    if aIn && bIn then []
    else if aIn != bIn then
      let bd := bisectBoundary caps g p0 p1 maxIter
      if aIn then [(bd, p1)] else [(p0, bd)]
    else if !segHitsAnyCapsule p0.1 p0.2 p1.1 p1.2 caps g then [(p0, p1)]
    else
      let enter := bisectBoundary caps g p0 p1 maxIter
      let exit2 := bisectBoundary caps g p1 p0 maxIter
      [(p0, enter), (exit2, p1)]

/-- The `flush_current` helper of `filter_line_by_eraser_px`: keep the
working polyline only when it has at least 4 flat coordinates. -/
def flushInto (out : List (List ℚ)) (cur : List ℚ) : List (List ℚ) :=
  if 4 ≤ cur.length then out ++ [cur] else out

/-- Last point of the working polyline (the `current[-2], current[-1]`
accesses). -/
def lastTwo (l : List ℚ) : Option (ℚ × ℚ) :=
  match l.reverse with
  | y :: x :: _ => some (x, y)
  | _ => none

/-- Fold one kept piece into the (out, current) state, merging with the
working polyline when the shared endpoint matches within 1e-6. -/
def addPiece (st : List (List ℚ) × List ℚ) (pc : (ℚ × ℚ) × (ℚ × ℚ)) :
    List (List ℚ) × List ℚ :=
  let out := st.1
  let cur := st.2
  let q0 := pc.1
  let q1 := pc.2
  match cur with
  | [] => (out, [q0.1, q0.2, q1.1, q1.2])
  | _ =>
    match lastTwo cur with
    | some lp =>
      if |lp.1 - q0.1| < epsJoin ∧ |lp.2 - q0.2| < epsJoin then (out, cur ++ [q1.1, q1.2])
      else (flushInto out cur, [q0.1, q0.2, q1.1, q1.2])
    | none => (flushInto out cur, [q0.1, q0.2, q1.1, q1.2])

/-- Walk the consecutive point pairs of the polyline, splitting each segment
and reassembling the kept pieces (the main loop of
`filter_line_by_eraser_px`). -/
def filterGo (caps : List Capsule) (g : UniformGrid) :
    List (ℚ × ℚ) → List (List ℚ) → List ℚ → List (List ℚ)
  | p0 :: p1 :: rest, out, cur =>
    let pieces := splitSegmentAgainstEraser p0 p1 caps g 18
    if pieces.isEmpty then filterGo caps g (p1 :: rest) (flushInto out cur) []
    else
      let st := pieces.foldl addPiece (out, cur)
      filterGo caps g (p1 :: rest) st.1 st.2
  | _, out, cur => flushInto out cur

/-- Group a flat coordinate list into points (the
`[(pts[i], pts[i+1]) for i in range(0, len, 2)]` comprehension; on an
odd-length list the source would raise IndexError on the dangling
coordinate, which is dropped here — no claim exercises odd inputs). -/
def toPairs : List ℚ → List (ℚ × ℚ)
  | x :: y :: rest => (x, y) :: toPairs rest
  | _ => []

/-- Filter a polyline against the eraser capsules (source:
`filter_line_by_eraser_px`). -/
def filterLineByEraserPx (pts : List ℚ) (caps : List Capsule) (g : UniformGrid) :
    List (List ℚ) :=
  if caps.isEmpty then [pts]
  else filterGo caps g (toPairs pts) [] []

/-- The fixed named-color table of `hex_to_rgb` (`NAMED_COLORS.get(color.lower(),
"#000000")`); the Python dict lookup with default is written as an if chain. -/
def namedColorHex (s : String) : String :=
  if s = "black" then "#000000"
  else if s = "white" then "#ffffff"
  else if s = "red" then "#ff0000"
  else if s = "green" then "#00ff00"
  else if s = "blue" then "#0000ff"
  else if s = "yellow" then "#ffff00"
  else if s = "cyan" then "#00ffff"
  else if s = "magenta" then "#ff00ff"
  else "#000000"

/-- Value of one hexadecimal digit, none for a non-digit. -/
def hexDigitVal (c : Char) : Option ℕ :=
  if '0' ≤ c ∧ c ≤ '9' then some (c.toNat - '0'.toNat)
  else if 'a' ≤ c ∧ c ≤ 'f' then some (c.toNat - 'a'.toNat + 10)
  else if 'A' ≤ c ∧ c ≤ 'F' then some (c.toNat - 'A'.toNat + 10)
  else none

/-- Python `int(s, 16)` on a slice: fails on the empty string and on any
non-hex-digit character.  (The sign/whitespace forms Python would also
accept cannot arise from the two-character slices taken below.) -/
def parseHexChunk (l : List Char) : Option ℕ :=
  if l.isEmpty then none
  else l.foldl (fun acc c => acc.bind fun a => (hexDigitVal c).map fun d => a * 16 + d) (some 0)

/-- An RGB triple with components in [0, 1]. -/
abbrev RGB := ℚ × ℚ × ℚ

/-- ASCII lower-casing of one character (Python `str.lower()`; the color
names the table recognizes are ASCII). -/
def charLower (c : Char) : Char :=
  if 'A' ≤ c ∧ c ≤ 'Z' then Char.ofNat (c.toNat + 32) else c

/-- String lower-casing, written over the character list so it evaluates
inside the kernel. -/
def strLower (s : String) : String := ⟨s.toList.map charLower⟩

/-- Does the string start with '#' (the `color.startswith("#")` test)? -/
def startsWithHash (s : String) : Bool :=
  match s.toList with
  | '#' :: _ => true
  | _ => false

/-- The tail of `hex_to_rgb`: strip leading '#' characters (`lstrip("#")`)
and parse the slices [0:2], [2:4], [4:6] as hex integers divided by 255.
A parse failure is the ValueError the source raises. -/
def parseHexColor (c1 : String) : Except String RGB :=
  let body := c1.toList.dropWhile (· == '#')
  match parseHexChunk ((body.drop 0).take 2), parseHexChunk ((body.drop 2).take 2),
        parseHexChunk ((body.drop 4).take 2) with
  | some r, some g0, some b0 => .ok ((r : ℚ) / 255, (g0 : ℚ) / 255, (b0 : ℚ) / 255)
  | _, _, _ => .error "ValueError: invalid literal for int() with base 16"

/-- Color conversion (source: `hex_to_rgb`): strings not starting with '#'
go through the named-color table (defaulting to black); the result is then
hex parsed. -/
def hexToRgb (color : String) : Except String RGB :=
  parseHexColor (if startsWithHash color then color else namedColorHex (strLower color))

/-- Coordinate normalization (source: `percentage_to_pdf_coords`). -/
def percentageToPdfCoords (xp yp w h : ℚ) : ℚ × ℚ := ((xp / 100) * w, (yp / 100) * h)

/-- Convert a flat percentage-space point list to page space (the
`for i in range(0, len(pts), 2)` conversion loop in `burn_annotations_to_pdf`;
as with `toPairs`, an odd-length list would raise in the source). -/
def convertPts (w h : ℚ) : List ℚ → List ℚ
  | x :: y :: rest =>
    let p := percentageToPdfCoords x y w h
    p.1 :: p.2 :: convertPts w h rest
  | _ => []

/-- One entry of the `lines` collection.  Option fields model the presence
or absence of the dict keys: `tool` and `strokeWidth` are read with
`.get` (with defaults) where the source does so, while a missing `points`
or `stroke` key raises KeyError at its subscript access. -/
structure LineItem where
  tool : Option String
  points : Option (List ℚ)
  stroke : Option String
  strokeWidth : Option ℚ
deriving DecidableEq, Repr

/-- One processed line of the timeline: stroke color, stroke width, and the
list of surviving polylines (the `processed_lines` entries). -/
abbrev Processed := RGB × ℚ × List (List ℚ)

/-- Eraser width resolution constants of `PdfAnnotationService`. -/
def eraserMinWidthPercent : ℚ := 4 / 5

/-- Maximum eraser width percentage (`ERASER_MAX_WIDTH_PERCENT = 4.0`). -/
def eraserMaxWidthPercent : ℚ := 4

/-- Default eraser width percentage (`ERASER_DEFAULT_WIDTH_PERCENT = 1.5`). -/
def eraserDefaultWidthPercent : ℚ := 3 / 2

/-- Eraser scale factor (`ERASER_SCALE_FACTOR = 0.7`). -/
def eraserScaleFactor : ℚ := 7 / 10

/-- Assumed UI page width in pixels (`ASSUMED_PAGE_WIDTH_PX = 600`). -/
def assumedPageWidthPx : ℚ := 600

/-- Page-level eraser width resolution (the `erasers = [...]` block of
`burn_annotations_to_pdf`): average the eraser strokes' widths (default 10
for a missing key), scale, and clamp; fixed default when no eraser stroke
exists. -/
def eraserWidthPercent (lines : List LineItem) : ℚ :=
  let ers := lines.filter fun li => decide (li.tool = some "fine-eraser")
  if ers.isEmpty then eraserDefaultWidthPercent
  else
    let avg := (ers.map fun e => e.strokeWidth.getD 10).sum / (ers.length : ℚ)
    max eraserMinWidthPercent
      (min eraserMaxWidthPercent (avg / assumedPageWidthPx * 100 * eraserScaleFactor))

/-- Build the per-eraser-stroke grid exactly as the source does: cell size
`max(8.0, r_px)`, grid over the page rectangle, capsules inserted by index. -/
def buildEraserGrid (pageW pageH r : ℚ) (caps : List Capsule) : UniformGrid :=
  let cell := max 8 r
  caps.enum.foldl (fun g ic => insertCapsule g ic.1 ic.2.aabb)
    (gridInit 0 0 pageW pageH cell)

/-- Apply one eraser stroke to every previously accumulated line (the
`updated_processed_lines` loop): each surviving polyline is filtered and a
line reduced to zero polylines is dropped. -/
def eraseStep (caps : List Capsule) (g : UniformGrid) (acc : List Processed) :
    List Processed :=
  acc.filterMap fun e =>
    let ns := (e.2.2.map fun s => filterLineByEraserPx s caps g).flatten
    if ns.isEmpty then none else some (e.1, e.2.1, ns)

/-- The stroke-timeline loop of `burn_annotations_to_pdf` (`for line_item in
lines`), at a fixed eraser radius r: ink strokes are appended to the working
list, eraser strokes rebuild capsules and grid and erase the accumulated
list; missing keys and bad colors are the exceptions the source would
raise at the corresponding subscripts. -/
def processLines (pageW pageH r : ℚ) :
    List LineItem → List Processed → Except String (List Processed)
  | [], acc => .ok acc
  | li :: rest, acc =>
    let tool := li.tool.getD "pencil"
    match li.points with
    | none => .error "KeyError: points"
    | some pts =>
      let ptsPx := convertPts pageW pageH pts
      if tool = "fine-eraser" then
        let caps := buildCapsules ptsPx r
        let g := buildEraserGrid pageW pageH r caps
        processLines pageW pageH r rest (eraseStep caps g acc)
      else
        match li.stroke with
        | none => .error "KeyError: stroke"
        | some s =>
          match hexToRgb s with
          | .error e => .error e
          | .ok col =>
            match li.strokeWidth with
            | none => .error "KeyError: strokeWidth"
            | some w => processLines pageW pageH r rest (acc ++ [(col, w, [ptsPx])])

/-- Process one page's `lines` (the per-page body of
`burn_annotations_to_pdf`): resolve the eraser radius in pixels
(`r_px = (eraser_width_percent / 100.0) * page_width * 0.5`) and run the
timeline. -/
def burnPage (pageW pageH : ℚ) (lines : List LineItem) :
    Except String (List Processed) :=
  let r := eraserWidthPercent lines / 100 * pageW * (1 / 2)
  processLines pageW pageH r lines []

/-- A drawing primitive issued by the renderer (`page.draw_line` /
`page.draw_circle`). -/
inductive DrawCmd
  | line (p q : ℚ × ℚ) (color : RGB) (width : ℚ)
  | circle (center : ℚ × ℚ) (radius : ℚ) (color : RGB)
deriving DecidableEq, Repr

/-- Line commands of one polyline (the `for i in range(0, len - 2, 2)` draw
loop). -/
def polylineLineCmds (col : RGB) (w : ℚ) : List (ℚ × ℚ) → List DrawCmd
  | p :: q :: rest => .line p q col w :: polylineLineCmds col w (q :: rest)
  | _ => []

/-- Joint circles of one polyline (the `for i in range(0, len, 2)` loop:
one circle of radius `stroke_width * 0.25` per vertex). -/
def jointCmds (col : RGB) (w : ℚ) (ps : List (ℚ × ℚ)) : List DrawCmd :=
  ps.map fun p => .circle p (w * (1 / 4)) col

/-- Render one surviving polyline; the source skips any polyline with fewer
than 4 flat coordinates (`if len(segment_points) < 4: continue`). -/
def renderSeg (col : RGB) (w : ℚ) (seg : List ℚ) : List DrawCmd :=
  if seg.length < 4 then []
  else polylineLineCmds col w (toPairs seg) ++ jointCmds col w (toPairs seg)

/-- All draw commands of the surviving lines (the final drawing loop of
`burn_annotations_to_pdf`). -/
def renderCmds (ps : List Processed) : List DrawCmd :=
  ps.flatMap fun e => e.2.2.flatMap fun seg => renderSeg e.1 e.2.1 seg

/-- The polylines actually drawn, with their color and width: exactly the
surviving segments with at least 4 flat coordinates, mirroring the render
loop's guard. -/
def renderPolylines (ps : List Processed) : List (RGB × ℚ × List ℚ) :=
  ps.flatMap fun e =>
    (e.2.2.filter fun seg => decide (4 ≤ seg.length)).map fun seg => (e.1, e.2.1, seg)

/-- The `data` field of an annotation record: absent (`.get("data", {})`
yields an empty dict), present but not dict-shaped (its `.get` raises
AttributeError), or a dict with a `lines` list.  The `texts` and
`stickyNotes` collections are drawn after the lines and are orthogonal to
every claim here, so they are not modelled. -/
inductive DataField
  | missing
  | malformed
  | valid (lines : List LineItem)
deriving DecidableEq, Repr

/-- One element of the `annotations` list passed to
`burn_annotations_to_pdf`. -/
structure AnnotRec where
  page : Option ℤ
  data : DataField
deriving DecidableEq, Repr

/-- The `lines` list a data field yields (`data.get("lines", [])`), once it
is known not to raise. -/
def dataLines : DataField → List LineItem
  | .valid l => l
  | _ => []

/-- The per-record loop of `burn_annotations_to_pdf` over a document whose
pages have the given (width, height) dimensions.  Out-of-range page numbers
are skipped; any exception propagates, aborting the loop before `doc.save`,
so an error value means no output document is written.  The ok value — the
processed lines burned per visited 0-indexed page — stands for the saved
document. -/
def burnDocGo (pages : List (ℚ × ℚ)) :
    List AnnotRec → List (ℕ × List Processed) → Except String (List (ℕ × List Processed))
  | [], acc => .ok acc
  | a :: rest, acc =>
    let pageNumber := a.page.getD 1
    if pageNumber < 1 ∨ pageNumber > (pages.length : ℤ) then burnDocGo pages rest acc
    else
      match a.data with
      | .malformed => .error "AttributeError: data is not a dict"
      | d =>
        let dims := pages.getD (pageNumber - 1).toNat (0, 0)
        match burnPage dims.1 dims.2 (dataLines d) with
        | .error e => .error e
        | .ok pr => burnDocGo pages rest (acc ++ [((pageNumber - 1).toNat, pr)])

/-- Burn a full document (source: `burn_annotations_to_pdf`). -/
def burnDoc (pages : List (ℚ × ℚ)) (annots : List AnnotRec) :
    Except String (List (ℕ × List Processed)) :=
  burnDocGo pages annots []

/-
  ===========================================================================
  Helper lemmas
  ===========================================================================
-/

/-- The named-color table returns one of its nine literal values. -/
lemma namedColorHex_cases (s : String) :
    namedColorHex s = "#000000" ∨ namedColorHex s = "#ffffff" ∨
    namedColorHex s = "#ff0000" ∨ namedColorHex s = "#00ff00" ∨
    namedColorHex s = "#0000ff" ∨ namedColorHex s = "#ffff00" ∨
    namedColorHex s = "#00ffff" ∨ namedColorHex s = "#ff00ff" := by
  unfold namedColorHex
  split_ifs <;> simp

/-- Every entry of the named-color table parses successfully. -/
lemma parseHexColor_table_ok (c1 : String)
    (h : c1 = "#000000" ∨ c1 = "#ffffff" ∨ c1 = "#ff0000" ∨ c1 = "#00ff00" ∨
         c1 = "#0000ff" ∨ c1 = "#ffff00" ∨ c1 = "#00ffff" ∨ c1 = "#ff00ff") :
    (parseHexColor c1).isOk = true := by
  rcases h with h | h | h | h | h | h | h | h <;> subst h <;> with_unfolding_all rfl

/-- On a string that does not start with '#', `hex_to_rgb` goes through the
named-color table. -/
lemma hexToRgb_of_not_hash (s : String) (hs : startsWithHash s = false) :
    hexToRgb s = parseHexColor (namedColorHex (strLower s)) := by
  unfold hexToRgb
  rw [hs]
  simp

/-
  ===========================================================================
  Claim C6
  ===========================================================================
-/

/-- Claim C6, counterexample: the claim says every input, recognized or
malformed, yields an RGB triple without raising; but `hex_to_rgb` on the
malformed hex string "#gg0000" raises a ValueError (`int("gg", 16)`), so it
does not fall back to black. -/
theorem C6_counterexample :
    (hexToRgb "#gg0000").isOk = false ∧ (hexToRgb "#fff").isOk = false := by
  constructor
  · with_unfolding_all rfl
  · with_unfolding_all rfl

/-- Claim C6, amended: a color string that does not start with '#' never
raises — a recognized named color maps through the table and any unknown
name falls back to black (0,0,0); but a string starting with '#' is parsed
as hex and a malformed hex body raises a ValueError instead of falling
back (see the counterexample). -/
theorem C6_theorem (s : String) (hs : startsWithHash s = false) :
    (hexToRgb s).isOk = true ∧
    (namedColorHex (strLower s) = "#000000" → hexToRgb s = .ok (0, 0, 0)) := by
  rw [hexToRgb_of_not_hash s hs]
  constructor
  · exact parseHexColor_table_ok _ (namedColorHex_cases (strLower s))
  · intro h
    rw [h]
    with_unfolding_all rfl

/-- Claim C6, witness: the unknown color name "purple" is accepted and falls
back to black. -/
theorem C6_witness :
    (hexToRgb "purple").isOk = true ∧
    (namedColorHex (strLower "purple") = "#000000" → hexToRgb "purple" = .ok (0, 0, 0)) :=
  C6_theorem "purple" (by with_unfolding_all rfl)

/-
  ===========================================================================
  Claim C2
  ===========================================================================
-/

/-- Claim C2, counterexample: the claim says a line entry is treated as an
eraser stroke exactly when its tool equals "eraser"; but the engine tests
for the string "fine-eraser", so an entry with tool = "eraser" is drawn as
an ordinary ink stroke (it appears as a second drawn entry and erases
nothing). -/
theorem C2_counterexample :
    processLines 100 100 1
      [⟨some "pencil", some [10, 10, 20, 10], some "#000000", some 2⟩,
       ⟨some "eraser", some [10, 10, 20, 10], some "#000000", some 2⟩] [] =
      .ok [((0, 0, 0), 2, [[10, 10, 20, 10]]), ((0, 0, 0), 2, [[10, 10, 20, 10]])] := by
  with_unfolding_all rfl

/-- Claim C2, amended: a line entry is treated as an eraser stroke —
capsules are built from it and it erases the accumulated lines instead of
being drawn — exactly when its tool field equals "fine-eraser" (not
"eraser"); any other tool value, including "eraser" and a missing tool
(default "pencil"), is drawn as an ink stroke. -/
theorem C2_theorem (pageW pageH r : ℚ) (li : LineItem) (rest : List LineItem)
    (acc : List Processed) (pts : List ℚ) (hp : li.points = some pts) :
    (li.tool = some "fine-eraser" →
      processLines pageW pageH r (li :: rest) acc =
        processLines pageW pageH r rest
          (eraseStep (buildCapsules (convertPts pageW pageH pts) r)
            (buildEraserGrid pageW pageH r (buildCapsules (convertPts pageW pageH pts) r))
            acc)) ∧
    (li.tool.getD "pencil" ≠ "fine-eraser" → ∀ s w col, li.stroke = some s →
      li.strokeWidth = some w → hexToRgb s = .ok col →
      processLines pageW pageH r (li :: rest) acc =
        processLines pageW pageH r rest (acc ++ [(col, w, [convertPts pageW pageH pts])])) := by
  constructor
  · intro h
    simp only [processLines, hp, h, Option.getD_some, if_pos]
  · intro h s w col hs hw hcol
    simp only [processLines, hp, hs, hw, hcol, if_neg h]

/-- Claim C2, witness: the amended claim instantiated at a concrete
"fine-eraser" entry. -/
theorem C2_witness :
    ((⟨some "fine-eraser", some [0, 0, 50, 0], none, some 10⟩ : LineItem).tool =
        some "fine-eraser" →
      processLines 100 100 1
          [⟨some "fine-eraser", some [0, 0, 50, 0], none, some 10⟩] [] =
        processLines 100 100 1 []
          (eraseStep (buildCapsules (convertPts 100 100 [0, 0, 50, 0]) 1)
            (buildEraserGrid 100 100 1 (buildCapsules (convertPts 100 100 [0, 0, 50, 0]) 1))
            [])) ∧
    ((⟨some "fine-eraser", some [0, 0, 50, 0], none, some 10⟩ : LineItem).tool.getD
          "pencil" ≠ "fine-eraser" →
      ∀ s w col,
        (⟨some "fine-eraser", some [0, 0, 50, 0], none, some 10⟩ : LineItem).stroke = some s →
        (⟨some "fine-eraser", some [0, 0, 50, 0], none, some 10⟩ : LineItem).strokeWidth =
          some w →
        hexToRgb s = .ok col →
        processLines 100 100 1
            [⟨some "fine-eraser", some [0, 0, 50, 0], none, some 10⟩] [] =
          processLines 100 100 1 [] ([] ++ [(col, w, [convertPts 100 100 [0, 0, 50, 0]])])) :=
  C2_theorem 100 100 1 ⟨some "fine-eraser", some [0, 0, 50, 0], none, some 10⟩ [] []
    [0, 0, 50, 0] rfl

/-
  ===========================================================================
  Claim C10
  ===========================================================================
-/

/-- Flushing preserves the at-least-4-coordinates invariant of the output
list, since `flush_current` only keeps a working polyline of length >= 4. -/
lemma flushInto_inv {out : List (List ℚ)} {cur : List ℚ}
    (h : ∀ s ∈ out, 4 ≤ s.length) : ∀ s ∈ flushInto out cur, 4 ≤ s.length := by
  intro s hs
  unfold flushInto at hs
  split at hs
  · rcases List.mem_append.1 hs with h1 | h1
    · exact h s h1
    · rw [List.mem_singleton.1 h1]
      assumption
  · exact h s hs

/-- Folding one kept piece into the state preserves the invariant. -/
lemma addPiece_inv {st : List (List ℚ) × List ℚ} {pc : (ℚ × ℚ) × (ℚ × ℚ)}
    (h : ∀ s ∈ st.1, 4 ≤ s.length) : ∀ s ∈ (addPiece st pc).1, 4 ≤ s.length := by
  unfold addPiece
  rcases st with ⟨out, cur⟩
  dsimp only
  match cur with
  | [] => exact h
  | c0 :: cs =>
    dsimp only
    match lastTwo (c0 :: cs) with
    | some lp =>
      dsimp only
      split
      · exact h
      · exact flushInto_inv h
    | none => exact flushInto_inv h

/-- Folding any list of kept pieces preserves the invariant. -/
lemma foldl_addPiece_inv (pieces : List ((ℚ × ℚ) × (ℚ × ℚ))) :
    ∀ st : List (List ℚ) × List ℚ, (∀ s ∈ st.1, 4 ≤ s.length) →
      ∀ s ∈ (pieces.foldl addPiece st).1, 4 ≤ s.length := by
  induction pieces with
  | nil => intro st h; exact h
  | cons pc rest ih =>
    intro st h
    rw [List.foldl_cons]
    exact ih _ (addPiece_inv h)

/-- The main loop of `filter_line_by_eraser_px` only ever emits polylines of
at least 4 flat coordinates. -/
lemma filterGo_inv (caps : List Capsule) (g : UniformGrid) :
    ∀ (pts : List (ℚ × ℚ)) (out : List (List ℚ)) (cur : List ℚ),
      (∀ s ∈ out, 4 ≤ s.length) → ∀ s ∈ filterGo caps g pts out cur, 4 ≤ s.length := by
  intro pts
  induction pts with
  | nil => intro out cur h; exact flushInto_inv h
  | cons p0 tail ih =>
    intro out cur h
    match tail with
    | [] => exact flushInto_inv h
    | p1 :: rest =>
      rw [filterGo]
      split
      · exact ih _ _ (flushInto_inv h)
      · exact ih _ _ (foldl_addPiece_inv _ _ h)

/-- Claim C10, confirmed: against a non-empty capsule set, every polyline
returned by `filter_line_by_eraser_px` has at least two points (at least 4
flat coordinates); shorter remnants are silently discarded by
`flush_current` and never rendered. -/
theorem C10_theorem (pts : List ℚ) (caps : List Capsule) (g : UniformGrid)
    (hne : caps ≠ []) : ∀ s ∈ filterLineByEraserPx pts caps g, 4 ≤ s.length := by
  unfold filterLineByEraserPx
  match caps, hne with
  | c :: cs, _ =>
    dsimp only [List.isEmpty_cons, Bool.false_eq_true, if_false]
    exact filterGo_inv (c :: cs) g (toPairs pts) [] [] (by intro s hs; cases hs)

/-- Claim C10, witness: the invariant applied to the concrete surviving
polyline of a bisection clip. -/
theorem C10_witness :
    4 ≤ ([0, 0, (1 : ℚ) / 2, 0] : List ℚ).length :=
  C10_theorem [0, 0, 1, 0] [⟨(1, -1), (1, 1), 1 / 2⟩]
    (buildEraserGrid 2 2 (1 / 2) [⟨(1, -1), (1, 1), 1 / 2⟩]) (by simp)
    [0, 0, (1 : ℚ) / 2, 0] (by with_unfolding_all decide)

/-
  ===========================================================================
  Claim C9
  ===========================================================================
-/

/-- Claim C9, counterexample: the claim says a single-point ink stroke is
still rendered as a filled circle of radius width/2; but the renderer skips
any surviving polyline with fewer than 4 flat coordinates
(`if len(segment_points) < 4: continue`), so the dot survives processing
yet produces no draw command at all. -/
theorem C9_counterexample :
    burnPage 100 100 [⟨some "pencil", some [10, 10], some "#ff0000", some 4⟩] =
      .ok [((1, 0, 0), 4, [[10, 10]])] ∧
    renderCmds [((1, 0, 0), 4, [[10, 10]])] = [] := by
  constructor
  · with_unfolding_all rfl
  · with_unfolding_all rfl

/-- The line-drawing pass emits no circles. -/
lemma polylineLineCmds_no_circle (col : RGB) (w : ℚ) :
    ∀ (ps : List (ℚ × ℚ)) (c : ℚ × ℚ) (rad : ℚ) (c2 : RGB),
      DrawCmd.circle c rad c2 ∈ polylineLineCmds col w ps → False := by
  intro ps
  induction ps with
  | nil => intro c rad c2 h; cases h
  | cons p tail ih =>
    intro c rad c2 h
    match tail with
    | [] => cases h
    | q :: rest =>
      rw [polylineLineCmds] at h
      rcases List.mem_cons.1 h with h1 | h1
      · cases h1
      · exact ih c rad c2 h1

/-- Claim C9, amended: a surviving polyline with fewer than two points (4
flat coordinates) is skipped entirely by the renderer — it is neither drawn
as lines nor as a dot, though nothing crashes; and the joint circles the
renderer does draw use radius width/4 (`stroke_width * 0.25`), not
width/2. -/
theorem C9_theorem (col : RGB) (w : ℚ) (seg : List ℚ) (h : seg.length < 4) :
    renderSeg col w seg = [] ∧
    (∀ (seg2 : List ℚ) (c : ℚ × ℚ) (rad : ℚ) (c2 : RGB),
      DrawCmd.circle c rad c2 ∈ renderSeg col w seg2 → rad = w * (1 / 4)) := by
  constructor
  · unfold renderSeg
    rw [if_pos h]
  · intro seg2 c rad c2 hm
    unfold renderSeg at hm
    split at hm
    · cases hm
    · rcases List.mem_append.1 hm with h1 | h1
      · exact absurd h1 (by intro hx; exact polylineLineCmds_no_circle col w _ c rad c2 hx)
      · rcases List.mem_map.1 h1 with ⟨p, _, hp⟩
        cases hp
        rfl

/-- Claim C9, witness: the renderer skip applied to a concrete one-point
polyline. -/
theorem C9_witness :
    renderSeg (1, 0, 0) 4 [10, 10] = [] ∧
    (∀ (seg2 : List ℚ) (c : ℚ × ℚ) (rad : ℚ) (c2 : RGB),
      DrawCmd.circle c rad c2 ∈ renderSeg (1, 0, 0) 4 seg2 → rad = 4 * (1 / 4)) :=
  C9_theorem (1, 0, 0) 4 [10, 10] (by simp)

/-
  ===========================================================================
  Claim C7
  ===========================================================================
-/

/-- The processed entry an ink line contributes: its parsed color, its
stroke width, and the single polyline of converted points. -/
def inkEntry (pageW pageH : ℚ) (li : LineItem) : Processed :=
  ((hexToRgb (li.stroke.getD "")).toOption.getD (0, 0, 0), li.strokeWidth.getD 0,
    [convertPts pageW pageH (li.points.getD [])])

/-- Well-formedness of one ink line entry: not an eraser, and all keys
present with a parseable color. -/
def WfInk (li : LineItem) : Prop :=
  li.tool.getD "pencil" ≠ "fine-eraser" ∧ (∃ pts, li.points = some pts) ∧
  (∃ s col, li.stroke = some s ∧ hexToRgb s = .ok col) ∧ (∃ w, li.strokeWidth = some w)

/-- A timeline without eraser strokes appends every ink entry unchanged. -/
lemma processLines_no_eraser (pageW pageH r : ℚ) :
    ∀ (lines : List LineItem) (acc : List Processed), (∀ li ∈ lines, WfInk li) →
      processLines pageW pageH r lines acc =
        .ok (acc ++ lines.map (inkEntry pageW pageH)) := by
  intro lines
  induction lines with
  | nil => intro acc _; simp [processLines]
  | cons li rest ih =>
    intro acc h
    obtain ⟨htool, ⟨pts, hpts⟩, ⟨s, col, hs, hcol⟩, ⟨w, hw⟩⟩ := h li (List.mem_cons_self li rest)
    have hrest : ∀ li2 ∈ rest, WfInk li2 := fun li2 hm => h li2 (List.mem_cons_of_mem li hm)
    simp only [processLines, hpts, hs, hcol, hw, if_neg htool]
    rw [ih _ hrest]
    simp only [inkEntry, hpts, hs, hcol, hw, List.map_cons, Option.getD_some]
    simp [Except.toOption]

/-- Claim C7, amended: on a page whose lines contain no eraser strokes (and
whose entries are well-formed), the burn is the identity on ink strokes
with at least two points — each is rendered with exactly its converted
point sequence, in order, with its own color and stroke width; an ink
stroke with fewer than two points, however, survives processing but is
dropped by the renderer (see the counterexample). -/
theorem C7_theorem (pageW pageH : ℚ) (lines : List LineItem)
    (h : ∀ li ∈ lines, WfInk li)
    (h4 : ∀ li ∈ lines, 4 ≤ (convertPts pageW pageH (li.points.getD [])).length) :
    burnPage pageW pageH lines = .ok (lines.map (inkEntry pageW pageH)) ∧
    renderPolylines (lines.map (inkEntry pageW pageH)) =
      lines.map fun li =>
        ((hexToRgb (li.stroke.getD "")).toOption.getD (0, 0, 0), li.strokeWidth.getD 0,
          convertPts pageW pageH (li.points.getD [])) := by
  constructor
  · unfold burnPage
    exact processLines_no_eraser pageW pageH _ lines [] h
  · induction lines with
    | nil => rfl
    | cons li rest ih =>
      have h4li := h4 li (List.mem_cons_self li rest)
      simp only [List.map_cons, renderPolylines, List.flatMap_cons] at *
      rw [show (inkEntry pageW pageH li).2.2 = [convertPts pageW pageH (li.points.getD [])]
        from rfl]
      rw [List.filter_cons_of_pos (by simpa using h4li)]
      simp only [List.filter_nil, List.map_cons, List.map_nil, List.cons_append,
        List.nil_append, List.cons.injEq]
      constructor
      · rfl
      · exact ih (fun li2 hm => h li2 (List.mem_cons_of_mem li hm))
          (fun li2 hm => h4 li2 (List.mem_cons_of_mem li hm))

/-- Claim C7, counterexample: the claim as stated covers every ink stroke;
but a one-point ink stroke on an eraser-free page survives processing and
is then not drawn at all, so the set of drawn polylines does not equal the
original strokes' point sequences. -/
theorem C7_counterexample :
    burnPage 100 100 [⟨some "pencil", some [30, 30], some "#0000ff", some 3⟩] =
      .ok [((0, 0, 1), 3, [[30, 30]])] ∧
    renderPolylines [((0, 0, 1), 3, [[30, 30]])] = [] := by
  constructor
  · with_unfolding_all rfl
  · with_unfolding_all rfl

/-- Claim C7, witness: the identity applied to a concrete two-point ink
stroke. -/
theorem C7_witness :
    burnPage 200 100 [⟨some "pencil", some [10, 10, 50, 10], some "#ff0000", some 2⟩] =
      .ok ([⟨some "pencil", some [10, 10, 50, 10], some "#ff0000", some 2⟩].map
        (inkEntry 200 100)) ∧
    renderPolylines
        ([⟨some "pencil", some [10, 10, 50, 10], some "#ff0000", some 2⟩].map
          (inkEntry 200 100)) =
      ([⟨some "pencil", some [10, 10, 50, 10], some "#ff0000", some 2⟩] :
          List LineItem).map fun li =>
        ((hexToRgb (li.stroke.getD "")).toOption.getD (0, 0, 0), li.strokeWidth.getD 0,
          convertPts 200 100 (li.points.getD [])) :=
  C7_theorem 200 100 [⟨some "pencil", some [10, 10, 50, 10], some "#ff0000", some 2⟩]
    (by
      intro li hm
      rw [List.mem_singleton.1 hm]
      refine ⟨by simp, ⟨_, rfl⟩, ⟨"#ff0000", (1, 0, 0), rfl, by with_unfolding_all rfl⟩,
        ⟨_, rfl⟩⟩)
    (by
      intro li hm
      rw [List.mem_singleton.1 hm]
      with_unfolding_all decide)

/-
  ===========================================================================
  Claim C5
  ===========================================================================
-/

/-- Claim C5, counterexample: the claim says a malformed record is skipped
and the remaining pages are still burned and written; but the source has no
exception handling around the per-record work, so a line entry missing its
`points` key raises KeyError, aborts the whole loop before `doc.save`, and
the second (well-formed) record is never burned nor any output written. -/
theorem C5_counterexample :
    burnDoc [(100, 100), (100, 100)]
      [⟨some 1, .valid [⟨some "pencil", none, some "#000000", some 2⟩]⟩,
       ⟨some 2, .valid [⟨some "pencil", some [10, 10, 20, 10], some "#000000", some 2⟩]⟩] =
      .error "KeyError: points" := by
  with_unfolding_all rfl

/-- Claim C5, amended: only a record whose page number is out of range is
skipped non-fatally (processing continues with the remaining records); a
malformed record — a line entry missing its `points` key, or a `data` field
that is not dict-shaped — raises instead, aborting the whole burn, so no
output document is written. -/
theorem C5_theorem (pages : List (ℚ × ℚ)) (a b c : AnnotRec) (rest : List AnnotRec)
    (acc : List (ℕ × List Processed)) (li : LineItem) (more : List LineItem)
    (hout : a.page.getD 1 < 1 ∨ a.page.getD 1 > (pages.length : ℤ))
    (hbin : ¬(b.page.getD 1 < 1 ∨ b.page.getD 1 > (pages.length : ℤ)))
    (hdata : b.data = .valid (li :: more)) (hpt : li.points = none)
    (hcin : ¬(c.page.getD 1 < 1 ∨ c.page.getD 1 > (pages.length : ℤ)))
    (hcdata : c.data = .malformed) :
    burnDocGo pages (a :: rest) acc = burnDocGo pages rest acc ∧
    burnDocGo pages (b :: rest) acc = .error "KeyError: points" ∧
    burnDocGo pages (c :: rest) acc = .error "AttributeError: data is not a dict" := by
  refine ⟨?_, ?_, ?_⟩
  · rw [burnDocGo, if_pos hout]
  · rw [burnDocGo, if_neg hbin, hdata]
    have : burnPage (pages.getD (b.page.getD 1 - 1).toNat (0, 0)).1
        (pages.getD (b.page.getD 1 - 1).toNat (0, 0)).2 (dataLines (.valid (li :: more))) =
        .error "KeyError: points" := by
      unfold burnPage dataLines
      rw [processLines, hpt]
    simp only [this]
  · rw [burnDocGo, if_neg hcin, hcdata]

/-- Claim C5, witness: the amended behaviour at concrete records — an
out-of-range record is skipped, a missing-points record aborts, a
malformed data field aborts. -/
theorem C5_witness :
    burnDocGo [(100, 100)]
        (⟨some 7, .valid []⟩ :: [⟨some 1, .valid []⟩]) [] =
      burnDocGo [(100, 100)] [⟨some 1, .valid []⟩] [] ∧
    burnDocGo [(100, 100)]
        (⟨some 1, .valid [⟨none, none, none, none⟩]⟩ :: [⟨some 1, .valid []⟩]) [] =
      .error "KeyError: points" ∧
    burnDocGo [(100, 100)] (⟨none, .malformed⟩ :: [⟨some 1, .valid []⟩]) [] =
      .error "AttributeError: data is not a dict" :=
  C5_theorem [(100, 100)] ⟨some 7, .valid []⟩ ⟨some 1, .valid [⟨none, none, none, none⟩]⟩
    ⟨none, .malformed⟩ [⟨some 1, .valid []⟩] [] ⟨none, none, none, none⟩ []
    (by simp) (by simp) rfl rfl (by simp) rfl

/-
  ===========================================================================
  Claim C3
  ===========================================================================
-/

/-- Parameter 0 is the first endpoint. -/
lemma lerp_zero (a b : ℚ × ℚ) : lerp a b 0 = a := by
  unfold lerp
  simp

/-- Parameter 1 is the second endpoint. -/
lemma lerp_one (a b : ℚ × ℚ) : lerp a b 1 = b := by
  unfold lerp
  simp

/-- Invariant of the bisection loop: the point at hi always tests inside,
the point at lo always tests outside, and each iteration halves the
interval. -/
lemma bisectLoop_inv (caps : List Capsule) (g : UniformGrid) (a b : ℚ × ℚ) :
    ∀ (n : ℕ) (lo hi : ℚ),
      insidePoint caps g (lerp a b hi) = true →
      insidePoint caps g (lerp a b lo) = false →
      insidePoint caps g (lerp a b (bisectLoop caps g a b n lo hi).2) = true ∧
      insidePoint caps g (lerp a b (bisectLoop caps g a b n lo hi).1) = false ∧
      (bisectLoop caps g a b n lo hi).2 - (bisectLoop caps g a b n lo hi).1 =
        (hi - lo) / 2 ^ n := by
  intro n
  induction n with
  | zero =>
    intro lo hi hhi hlo
    simp only [bisectLoop]
    exact ⟨hhi, hlo, by simp⟩
  | succ n ih =>
    intro lo hi hhi hlo
    rw [bisectLoop]
    by_cases hmid : insidePoint caps g (lerp a b ((lo + hi) / 2)) = true
    · rw [if_pos hmid]
      obtain ⟨h1, h2, h3⟩ := ih lo ((lo + hi) / 2) hmid hlo
      refine ⟨h1, h2, ?_⟩
      rw [h3]
      rw [pow_succ]
      field_simp
      ring
    · rw [if_neg hmid]
      obtain ⟨h1, h2, h3⟩ := ih ((lo + hi) / 2) hi hhi (Bool.not_eq_true _ ▸ hmid)
      refine ⟨h1, h2, ?_⟩
      rw [h3]
      rw [pow_succ]
      field_simp
      ring

/-- Claim C3, counterexample: for the segment (0,0)-(1,0) whose right
endpoint lies inside a single vertical capsule (centerline x = 1, radius
1/2), the bisection clip point is (1/2, 0), and that point tests as
INSIDE the erased region (its degenerate point test is <= 0), not outside
as the claim states. -/
theorem C3_counterexample :
    splitSegmentAgainstEraser (0, 0) (1, 0) [⟨(1, -1), (1, 1), 1 / 2⟩]
        (buildEraserGrid 2 2 (1 / 2) [⟨(1, -1), (1, 1), 1 / 2⟩]) 18 =
      [((0, 0), (1 / 2, 0))] ∧
    insidePoint [⟨(1, -1), (1, 1), 1 / 2⟩]
        (buildEraserGrid 2 2 (1 / 2) [⟨(1, -1), (1, 1), 1 / 2⟩]) (0, 0) = false ∧
    insidePoint [⟨(1, -1), (1, 1), 1 / 2⟩]
        (buildEraserGrid 2 2 (1 / 2) [⟨(1, -1), (1, 1), 1 / 2⟩]) (1, 0) = true ∧
    insidePoint [⟨(1, -1), (1, 1), 1 / 2⟩]
        (buildEraserGrid 2 2 (1 / 2) [⟨(1, -1), (1, 1), 1 / 2⟩]) (1 / 2, 0) = true := by
  refine ⟨?_, ?_, ?_, ?_⟩ <;> with_unfolding_all rfl

/-- Claim C3, amended: for a segment with its first endpoint outside and
its second inside (the one-endpoint-inside case, taken in the orientation
the source normalizes to), the split returns the surviving half clipped at
the 18-iteration bisection boundary point; that point tests as INSIDE the
erased region (not outside), and it lies at the inside end of the final
bisection interval: there are parameters lo < hi with hi - lo = 2^-18 such
that the point at lo tests outside, the point at hi tests inside, and the
returned clip point is the point at hi. -/
theorem C3_theorem (p0 p1 : ℚ × ℚ) (caps : List Capsule) (g : UniformGrid)
    (h0 : insidePoint caps g p0 = false) (h1 : insidePoint caps g p1 = true)
    (hq : posOpt (segDistance2ToEraser p0.1 p0.2 p1.1 p1.2 caps g) = false) :
    splitSegmentAgainstEraser p0 p1 caps g 18 = [(p0, bisectBoundary caps g p0 p1 18)] ∧
    insidePoint caps g (bisectBoundary caps g p0 p1 18) = true ∧
    ∃ lo hi : ℚ, hi - lo = 1 / 2 ^ 18 ∧
      insidePoint caps g (lerp p0 p1 lo) = false ∧
      insidePoint caps g (lerp p0 p1 hi) = true ∧
      bisectBoundary caps g p0 p1 18 = lerp p0 p1 hi := by
  have hswap : (insidePoint caps g p0 && !insidePoint caps g p1) = false := by
    rw [h0, h1]
    rfl
  have hbd : bisectBoundary caps g p0 p1 18 =
      lerp p0 p1 (bisectLoop caps g p0 p1 18 0 1).2 := by
    unfold bisectBoundary
    rw [hswap]
    rfl
  have hinit1 : insidePoint caps g (lerp p0 p1 1) = true := by rw [lerp_one]; exact h1
  have hinit0 : insidePoint caps g (lerp p0 p1 0) = false := by rw [lerp_zero]; exact h0
  obtain ⟨hhi, hlo, hgap⟩ := bisectLoop_inv caps g p0 p1 18 0 1 hinit1 hinit0
  refine ⟨?_, ?_, ?_⟩
  · rw [splitSegmentAgainstEraser]
    rw [hq]
    simp only [Bool.false_eq_true, if_false, h0, h1]
    rfl
  · rw [hbd]
    exact hhi
  · refine ⟨(bisectLoop caps g p0 p1 18 0 1).1, (bisectLoop caps g p0 p1 18 0 1).2,
      ?_, hlo, hhi, hbd⟩
    rw [hgap]
    norm_num

/-- Claim C3, witness: the amended statement applied to a concrete
one-endpoint-inside segment (vertical capsule at x = 7/10, radius 1/4). -/
theorem C3_witness :
    splitSegmentAgainstEraser (0, 0) (1, 0) [⟨(9 / 10, -1), (9 / 10, 1), 1 / 4⟩]
        (buildEraserGrid 2 2 (1 / 4) [⟨(9 / 10, -1), (9 / 10, 1), 1 / 4⟩]) 18 =
      [((0, 0),
        bisectBoundary [⟨(9 / 10, -1), (9 / 10, 1), 1 / 4⟩]
          (buildEraserGrid 2 2 (1 / 4) [⟨(9 / 10, -1), (9 / 10, 1), 1 / 4⟩]) (0, 0) (1, 0) 18)] ∧
    insidePoint [⟨(9 / 10, -1), (9 / 10, 1), 1 / 4⟩]
        (buildEraserGrid 2 2 (1 / 4) [⟨(9 / 10, -1), (9 / 10, 1), 1 / 4⟩])
        (bisectBoundary [⟨(9 / 10, -1), (9 / 10, 1), 1 / 4⟩]
          (buildEraserGrid 2 2 (1 / 4) [⟨(9 / 10, -1), (9 / 10, 1), 1 / 4⟩]) (0, 0) (1, 0) 18) =
      true ∧
    ∃ lo hi : ℚ, hi - lo = 1 / 2 ^ 18 ∧
      insidePoint [⟨(9 / 10, -1), (9 / 10, 1), 1 / 4⟩]
          (buildEraserGrid 2 2 (1 / 4) [⟨(9 / 10, -1), (9 / 10, 1), 1 / 4⟩])
          (lerp (0, 0) (1, 0) lo) = false ∧
      insidePoint [⟨(9 / 10, -1), (9 / 10, 1), 1 / 4⟩]
          (buildEraserGrid 2 2 (1 / 4) [⟨(9 / 10, -1), (9 / 10, 1), 1 / 4⟩])
          (lerp (0, 0) (1, 0) hi) = true ∧
      bisectBoundary [⟨(9 / 10, -1), (9 / 10, 1), 1 / 4⟩]
          (buildEraserGrid 2 2 (1 / 4) [⟨(9 / 10, -1), (9 / 10, 1), 1 / 4⟩]) (0, 0) (1, 0) 18 =
        lerp (0, 0) (1, 0) hi :=
  C3_theorem (0, 0) (1, 0) [⟨(9 / 10, -1), (9 / 10, 1), 1 / 4⟩]
    (buildEraserGrid 2 2 (1 / 4) [⟨(9 / 10, -1), (9 / 10, 1), 1 / 4⟩])
    (by with_unfolding_all rfl) (by with_unfolding_all rfl) (by with_unfolding_all rfl)

/-
  ===========================================================================
  Claim C1
  ===========================================================================
-/

/-- One unfolding of the timeline loop at a line with no `points` key. -/
lemma processLines_cons_none (pageW pageH r : ℚ) (li : LineItem) (rest : List LineItem)
    (acc : List Processed) (hp : li.points = none) :
    processLines pageW pageH r (li :: rest) acc = .error "KeyError: points" := by
  simp only [processLines, hp]

/-- One unfolding of the timeline loop at an eraser stroke. -/
lemma processLines_cons_eraser (pageW pageH r : ℚ) (li : LineItem) (rest : List LineItem)
    (acc : List Processed) (pts : List ℚ) (hp : li.points = some pts)
    (hE : li.tool.getD "pencil" = "fine-eraser") :
    processLines pageW pageH r (li :: rest) acc =
      processLines pageW pageH r rest
        (eraseStep (buildCapsules (convertPts pageW pageH pts) r)
          (buildEraserGrid pageW pageH r (buildCapsules (convertPts pageW pageH pts) r))
          acc) := by
  simp only [processLines, hp, hE, if_pos]

/-- One unfolding of the timeline loop at an ink stroke. -/
lemma processLines_cons_ink (pageW pageH r : ℚ) (li : LineItem) (rest : List LineItem)
    (acc : List Processed) (pts : List ℚ) (s : String) (col : RGB) (w : ℚ)
    (hp : li.points = some pts) (hE : li.tool.getD "pencil" ≠ "fine-eraser")
    (hs : li.stroke = some s) (hcol : hexToRgb s = .ok col) (hw : li.strokeWidth = some w) :
    processLines pageW pageH r (li :: rest) acc =
      processLines pageW pageH r rest (acc ++ [(col, w, [convertPts pageW pageH pts])]) := by
  simp only [processLines, hp, hs, hcol, hw, if_neg hE]

/-- The effect of the erasers of a line list on an already-accumulated
working list, ignoring the list's own ink strokes: the timeline's eraser
steps act elementwise on the accumulated entries. -/
def applyErasers (pageW pageH r : ℚ) : List LineItem → List Processed → List Processed
  | [], acc => acc
  | li :: rest, acc =>
    if li.tool.getD "pencil" = "fine-eraser" then
      applyErasers pageW pageH r rest
        (eraseStep (buildCapsules (convertPts pageW pageH (li.points.getD [])) r)
          (buildEraserGrid pageW pageH r
            (buildCapsules (convertPts pageW pageH (li.points.getD [])) r))
          acc)
    else applyErasers pageW pageH r rest acc

/-- An eraser pass distributes over concatenation of the working list
(each entry is filtered independently). -/
lemma eraseStep_append (caps : List Capsule) (g : UniformGrid) (a b : List Processed) :
    eraseStep caps g (a ++ b) = eraseStep caps g a ++ eraseStep caps g b := by
  unfold eraseStep
  exact List.filterMap_append a b _

/-- Splitting the working list: processing a timeline from a concatenated
working list yields the erasure-evolved front part followed by the result
from the back part alone. -/
lemma processLines_split (pageW pageH r : ℚ) :
    ∀ (post : List LineItem) (a b : List Processed),
      processLines pageW pageH r post (a ++ b) =
        (processLines pageW pageH r post b).map
          fun z => applyErasers pageW pageH r post a ++ z := by
  intro post
  induction post with
  | nil =>
    intro a b
    simp only [processLines, applyErasers, Except.map]
  | cons li rest ih =>
    intro a b
    cases hp : li.points with
    | none =>
      rw [processLines_cons_none pageW pageH r li rest _ hp,
        processLines_cons_none pageW pageH r li rest b hp]
      rfl
    | some pts =>
      by_cases hE : li.tool.getD "pencil" = "fine-eraser"
      · rw [processLines_cons_eraser pageW pageH r li rest _ pts hp hE,
          processLines_cons_eraser pageW pageH r li rest b pts hp hE,
          eraseStep_append, ih]
        have hget : li.points.getD [] = pts := by rw [hp]; rfl
        simp only [applyErasers, if_pos hE, hget]
      · cases hs : li.stroke with
        | none =>
          simp only [processLines, hp, hs, if_neg hE]
          rfl
        | some s =>
          cases hcol : hexToRgb s with
          | error e =>
            simp only [processLines, hp, hs, hcol, if_neg hE]
            rfl
          | ok col =>
            cases hw : li.strokeWidth with
            | none =>
              simp only [processLines, hp, hs, hcol, hw, if_neg hE]
              rfl
            | some w =>
              rw [processLines_cons_ink pageW pageH r li rest _ pts s col w hp hE hs hcol hw,
                processLines_cons_ink pageW pageH r li rest b pts s col w hp hE hs hcol hw,
                List.append_assoc, ih]
              simp only [applyErasers, if_neg hE]

/-- Processing a concatenated timeline is sequential composition. -/
lemma processLines_append (pageW pageH r : ℚ) :
    ∀ (xs ys : List LineItem) (acc : List Processed),
      processLines pageW pageH r (xs ++ ys) acc =
        (processLines pageW pageH r xs acc).bind
          fun m => processLines pageW pageH r ys m := by
  intro xs
  induction xs with
  | nil =>
    intro ys acc
    simp only [List.nil_append, processLines, Except.bind]
  | cons li rest ih =>
    intro ys acc
    cases hp : li.points with
    | none =>
      rw [List.cons_append, processLines_cons_none pageW pageH r li _ _ hp,
        processLines_cons_none pageW pageH r li rest acc hp]
      rfl
    | some pts =>
      by_cases hE : li.tool.getD "pencil" = "fine-eraser"
      · rw [List.cons_append, processLines_cons_eraser pageW pageH r li _ _ pts hp hE,
          processLines_cons_eraser pageW pageH r li rest acc pts hp hE, ih]
      · cases hs : li.stroke with
        | none =>
          rw [List.cons_append]
          simp only [processLines, hp, hs, if_neg hE]
          rfl
        | some s =>
          cases hcol : hexToRgb s with
          | error e =>
            rw [List.cons_append]
            simp only [processLines, hp, hs, hcol, if_neg hE]
            rfl
          | ok col =>
            cases hw : li.strokeWidth with
            | none =>
              rw [List.cons_append]
              simp only [processLines, hp, hs, hcol, hw, if_neg hE]
              rfl
            | some w =>
              rw [List.cons_append,
                processLines_cons_ink pageW pageH r li _ _ pts s col w hp hE hs hcol hw,
                processLines_cons_ink pageW pageH r li rest acc pts s col w hp hE hs hcol hw,
                ih]

/-- Claim C1, counterexample: the claim says an ink stroke occurring after
an eraser stroke renders identically whether or not that eraser stroke is
present.  But the eraser radius is resolved once per page from the average
width of ALL eraser strokes: with a wide eraser E1 present before the ink
stroke B, the clamped radius grows from 7/6% to 4% of page width, and the
later eraser E2 then fully erases B — while without E1, B survives
untouched.  B is a stroke after E1, yet its rendering differs. -/
theorem C1_counterexample :
    burnPage 16 16
      [⟨some "fine-eraser", some [25 / 2, 25 / 2, 25 / 2, 75 / 4], none, some 100⟩,
       ⟨some "pencil", some [205 / 4, 50, 205 / 4, 405 / 8], some "#ff0000", some 2⟩,
       ⟨some "fine-eraser", some [50, 25, 50, 75], none, some 10⟩] = .ok [] ∧
    burnPage 16 16
      [⟨some "pencil", some [205 / 4, 50, 205 / 4, 405 / 8], some "#ff0000", some 2⟩,
       ⟨some "fine-eraser", some [50, 25, 50, 75], none, some 10⟩] =
      .ok [((1, 0, 0), 2, [[41 / 5, 8, 41 / 5, 81 / 10]])] := by
  constructor
  · with_unfolding_all rfl
  · with_unfolding_all rfl

/-- Claim C1, amended: at a FIXED eraser radius r (the radius the page
resolves once; removing an eraser stroke can change it, see the
counterexample), erasure is temporally scoped: for a timeline
pre ++ [E] ++ post with E an eraser stroke, the entries contributed by the
strokes in post are exactly `processLines post []` in both the timeline
with E and the timeline without E — only the already-accumulated prefix
entries differ.  Ink drawn after the eraser is never retroactively
erased by it. -/
theorem C1_theorem (pageW pageH r : ℚ) (pre post : List LineItem) (E : LineItem)
    (pts : List ℚ) (hE : E.tool = some "fine-eraser") (hEp : E.points = some pts)
    (L0 : List Processed) (hpre : processLines pageW pageH r pre [] = .ok L0) :
    ∃ X Y : List Processed,
      processLines pageW pageH r (pre ++ E :: post) [] =
        (processLines pageW pageH r post []).map (fun z => X ++ z) ∧
      processLines pageW pageH r (pre ++ post) [] =
        (processLines pageW pageH r post []).map (fun z => Y ++ z) := by
  have hgetD : E.tool.getD "pencil" = "fine-eraser" := by rw [hE]; rfl
  set caps := buildCapsules (convertPts pageW pageH pts) r with hcaps
  set g := buildEraserGrid pageW pageH r caps with hg
  refine ⟨applyErasers pageW pageH r post (eraseStep caps g L0),
    applyErasers pageW pageH r post L0, ?_, ?_⟩
  · rw [processLines_append pageW pageH r pre (E :: post) [], hpre]
    show processLines pageW pageH r (E :: post) L0 = _
    rw [processLines_cons_eraser pageW pageH r E post L0 pts hEp hgetD]
    have h2 : eraseStep caps g L0 = eraseStep caps g L0 ++ [] := by simp
    rw [h2, processLines_split]
    simp
  · rw [processLines_append pageW pageH r pre post [], hpre]
    show processLines pageW pageH r post L0 = _
    have h2 : L0 = L0 ++ [] := by simp
    rw [h2, processLines_split]
    simp

/-- Claim C1, witness: the amended statement at a concrete timeline of one
ink stroke, one eraser, then one ink stroke. -/
theorem C1_witness :
    ∃ X Y : List Processed,
      processLines 100 100 1
          ([⟨some "pencil", some [10, 10, 20, 10], some "#ff0000", some 2⟩] ++
            (⟨some "fine-eraser", some [10, 5, 10, 15], none, some 10⟩ : LineItem) ::
              [⟨some "pencil", some [40, 40, 60, 40], some "blue", some 3⟩]) [] =
        (processLines 100 100 1
            [⟨some "pencil", some [40, 40, 60, 40], some "blue", some 3⟩] []).map
          (fun z => X ++ z) ∧
      processLines 100 100 1
          ([⟨some "pencil", some [10, 10, 20, 10], some "#ff0000", some 2⟩] ++
            [⟨some "pencil", some [40, 40, 60, 40], some "blue", some 3⟩]) [] =
        (processLines 100 100 1
            [⟨some "pencil", some [40, 40, 60, 40], some "blue", some 3⟩] []).map
          (fun z => Y ++ z) :=
  C1_theorem 100 100 1 [⟨some "pencil", some [10, 10, 20, 10], some "#ff0000", some 2⟩]
    [⟨some "pencil", some [40, 40, 60, 40], some "blue", some 3⟩]
    ⟨some "fine-eraser", some [10, 5, 10, 15], none, some 10⟩ [10, 5, 10, 15] rfl rfl
    [((1, 0, 0), 2, [[10, 10, 20, 10]])] (by with_unfolding_all rfl)

/-
  ===========================================================================
  Claim C8
  ===========================================================================
-/

/-- The segment p-q lies strictly outside the eraser (the quick-accept test
of `split_segment_against_eraser` succeeds). -/
def OutSeg (caps : List Capsule) (g : UniformGrid) (p q : ℚ × ℚ) : Prop :=
  posOpt (segDistance2ToEraser p.1 p.2 q.1 q.2 caps g) = true

/-- Relation between consecutive polyline points under which a segment is
either kept whole or fully erased by the splitter: strictly outside, or not
quick-accepted with both endpoints inside. -/
def KeepOrErase (caps : List Capsule) (g : UniformGrid) (p q : ℚ × ℚ) : Prop :=
  OutSeg caps g p q ∨
    (posOpt (segDistance2ToEraser p.1 p.2 q.1 q.2 caps g) = false ∧
      insidePoint caps g p = true ∧ insidePoint caps g q = true)

/-- Flatten a point list back to the flat coordinate encoding. -/
def flatPts (l : List (ℚ × ℚ)) : List ℚ := l.flatMap fun p => [p.1, p.2]

/-- A polyline all of whose segments are strictly outside the eraser. -/
def GoodPoly (caps : List Capsule) (g : UniformGrid) (s : List ℚ) : Prop :=
  ∃ ql : List (ℚ × ℚ), s = flatPts ql ∧ 2 ≤ ql.length ∧
    List.Chain' (OutSeg caps g) ql

/-- A strictly-outside segment is kept whole by the splitter. -/
lemma split_out (caps : List Capsule) (g : UniformGrid) (p q : ℚ × ℚ)
    (h : OutSeg caps g p q) :
    splitSegmentAgainstEraser p q caps g 18 = [(p, q)] := by
  rw [splitSegmentAgainstEraser,
    if_pos (show posOpt (segDistance2ToEraser p.1 p.2 q.1 q.2 caps g) = true from h)]

/-- A not-quick-accepted segment with both endpoints inside is fully
erased. -/
lemma split_in2 (caps : List Capsule) (g : UniformGrid) (p q : ℚ × ℚ)
    (hq : posOpt (segDistance2ToEraser p.1 p.2 q.1 q.2 caps g) = false)
    (hp : insidePoint caps g p = true) (hq2 : insidePoint caps g q = true) :
    splitSegmentAgainstEraser p q caps g 18 = [] := by
  rw [splitSegmentAgainstEraser, hq]
  simp only [Bool.false_eq_true, if_false, hp, hq2]
  rfl

/-- Appending one point to the flat encoding. -/
lemma flatPts_append (l1 l2 : List (ℚ × ℚ)) :
    flatPts (l1 ++ l2) = flatPts l1 ++ flatPts l2 := by
  unfold flatPts
  exact List.flatMap_append l1 l2 _

/-- The last point of a flat list ending in an explicit coordinate pair. -/
lemma lastTwo_append2 (l : List ℚ) (x y : ℚ) : lastTwo (l ++ [x, y]) = some (x, y) := by
  unfold lastTwo
  rw [show (l ++ [x, y]) = (l ++ [x]) ++ [y] by simp, List.reverse_concat,
    List.reverse_concat]

/-- Appending a piece whose start matches the working polyline's last point
extends the polyline (the continuity branch of the reassembly loop, with
the 1e-6 test satisfied exactly). -/
lemma addPiece_cont (out : List (List ℚ)) (cur : List ℚ) (p q : ℚ × ℚ)
    (hcur : cur ≠ []) (hlast : lastTwo cur = some p) :
    addPiece (out, cur) (p, q) = (out, cur ++ [q.1, q.2]) := by
  unfold addPiece
  match cur, hcur, hlast with
  | c0 :: cs, _, hlast =>
    dsimp only
    split
    · next lp heq =>
      rw [hlast] at heq
      cases heq
      rw [if_pos]
      constructor <;>
        · rw [sub_self, abs_zero]
          norm_num [epsJoin]
    · next heq =>
      rw [hlast] at heq
      cases heq

/-- The grouping of a flat encoding recovers the point list. -/
lemma toPairs_flatPts (l : List (ℚ × ℚ)) : toPairs (flatPts l) = l := by
  induction l with
  | nil => rfl
  | cons p rest ih =>
    show toPairs (p.1 :: p.2 :: flatPts rest) = p :: rest
    rw [toPairs, ih]

/-- Under an all-outside chain, the main loop keeps extending the working
polyline with every point and finally flushes it whole. -/
lemma filterGo_all_out (caps : List Capsule) (g : UniformGrid) :
    ∀ (ps : List (ℚ × ℚ)) (p : ℚ × ℚ) (out : List (List ℚ)) (cur : List ℚ),
      List.Chain' (OutSeg caps g) (p :: ps) → 4 ≤ cur.length → lastTwo cur = some p →
      filterGo caps g (p :: ps) out cur = out ++ [cur ++ flatPts ps] := by
  intro ps
  induction ps with
  | nil =>
    intro p out cur _ hlen _
    show flushInto out cur = _
    rw [flushInto, if_pos hlen]
    simp [flatPts]
  | cons q rest ih =>
    intro p out cur hch hlen hlast
    obtain ⟨hout, hch2⟩ := List.chain'_cons.1 hch
    rw [filterGo, split_out caps g p q hout]
    simp only [List.isEmpty_cons, Bool.false_eq_true, if_false, List.foldl_cons,
      List.foldl_nil]
    have hcur : cur ≠ [] := by
      intro h
      rw [h] at hlen
      simp at hlen
    rw [addPiece_cont out cur p q hcur hlast]
    rw [ih q out (cur ++ [q.1, q.2]) hch2 (by simp; omega) (lastTwo_append2 cur q.1 q.2)]
    simp only [flatPts, List.flatMap_cons, List.append_assoc]

/-- A polyline whose segments all lie strictly outside the eraser is
returned unchanged by `filter_line_by_eraser_px`. -/
lemma filterLine_all_out (caps : List Capsule) (g : UniformGrid) (ql : List (ℚ × ℚ))
    (hcaps : caps ≠ []) (hlen : 2 ≤ ql.length) (hch : List.Chain' (OutSeg caps g) ql) :
    filterLineByEraserPx (flatPts ql) caps g = [flatPts ql] := by
  match ql, hlen with
  | p0 :: p1 :: rest, _ =>
    unfold filterLineByEraserPx
    rw [if_neg (by simp [hcaps])]
    rw [toPairs_flatPts]
    obtain ⟨hout, hch2⟩ := List.chain'_cons.1 hch
    rw [filterGo, split_out caps g p0 p1 hout]
    simp only [List.isEmpty_cons, Bool.false_eq_true, if_false, List.foldl_cons,
      List.foldl_nil]
    have haddp : addPiece ([], []) (p0, p1) = ([], [p0.1, p0.2, p1.1, p1.2]) := rfl
    rw [haddp]
    have h4 : ([p0.1, p0.2, p1.1, p1.2] : List ℚ) = [p0.1, p0.2] ++ [p1.1, p1.2] := rfl
    rw [filterGo_all_out caps g rest p1 [] _ hch2 (by simp)
      (h4 ▸ lastTwo_append2 [p0.1, p0.2] p1.1 p1.2)]
    simp [flatPts]

/-- Invariant of the first pass under a keep-or-erase chain: every emitted
polyline has all its segments strictly outside the eraser. -/
lemma filterGo_good (caps : List Capsule) (g : UniformGrid) :
    ∀ (qs : List (ℚ × ℚ)) (out : List (List ℚ)) (cur : List ℚ),
      List.Chain' (KeepOrErase caps g) qs →
      (∀ s ∈ out, GoodPoly caps g s) →
      (cur = [] ∨ ∃ ql p0 ps0, qs = p0 :: ps0 ∧ cur = flatPts (ql ++ [p0]) ∧
        List.Chain' (OutSeg caps g) (ql ++ [p0]) ∧ 1 ≤ ql.length) →
      ∀ s ∈ filterGo caps g qs out cur, GoodPoly caps g s := by
  intro qs
  induction qs with
  | nil =>
    intro out cur _ hout hcur
    have hc : cur = [] := by
      rcases hcur with h | ⟨ql, p0, ps0, h, _⟩
      · exact h
      · cases h
    subst hc
    intro s hs
    exact hout s hs
  | cons p0 tail ih =>
    intro out cur hch hout hcur
    have hflush : ∀ s ∈ flushInto out cur, GoodPoly caps g s := by
      intro s hs
      unfold flushInto at hs
      split at hs
      · rcases List.mem_append.1 hs with h1 | h1
        · exact hout s h1
        · rw [List.mem_singleton.1 h1]
          rcases hcur with h | ⟨ql, pz, ps0, heq, hc, hchain, hlen⟩
          · subst h
            simp at *
          · exact ⟨ql ++ [pz], hc, by simp; omega, hchain⟩
      · exact hout s hs
    match tail with
    | [] => exact hflush
    | p1 :: rest =>
      obtain ⟨hr, hch2⟩ := List.chain'_cons.1 hch
      rw [filterGo]
      rcases hr with hr | ⟨hq, hin0, hin1⟩
      · -- segment kept whole; it extends (or starts) the working polyline
        rw [split_out caps g p0 p1 hr]
        simp only [List.isEmpty_cons, Bool.false_eq_true, if_false, List.foldl_cons,
          List.foldl_nil]
        rcases hcur with hc | ⟨ql, pz, ps0, heq, hc, hchain, hlen⟩
        · subst hc
          have haddp : addPiece (out, []) (p0, p1) = (out, [p0.1, p0.2, p1.1, p1.2]) := rfl
          rw [haddp]
          refine ih out _ hch2 hout (Or.inr ⟨[p0], p1, rest, rfl, rfl, ?_, by simp⟩)
          exact List.chain'_pair.2 hr
        · obtain ⟨rfl, _⟩ : p0 = pz ∧ ps0 = p1 :: rest := by
            cases heq
            exact ⟨rfl, rfl⟩
          have hcne : cur ≠ [] := by
            rw [hc, flatPts_append]
            simp [flatPts]
          have hlast : lastTwo cur = some p0 := by
            rw [hc, flatPts_append,
              show flatPts [p0] = [p0.1, p0.2] from rfl]
            exact lastTwo_append2 _ p0.1 p0.2
          rw [addPiece_cont out cur p0 p1 hcne hlast]
          refine ih out _ hch2 hout (Or.inr ⟨ql ++ [p0], p1, rest, rfl, ?_, ?_, by
            simp⟩)
          · rw [hc, List.append_assoc, flatPts_append, flatPts_append, flatPts_append]
            simp [flatPts]
          · rw [List.chain'_append]
            refine ⟨hchain, List.chain'_singleton p1, ?_⟩
            intro x hx y hy
            rw [List.getLast?_concat] at hx
            cases hx
            cases hy
            exact hr
      · -- segment fully erased; flush the working polyline and restart
        rw [split_in2 caps g p0 p1 hq hin0 hin1]
        simp only [List.isEmpty_nil, if_true]
        exact ih _ [] hch2 hflush (Or.inl rfl)

/-- First pass of `filter_line_by_eraser_px` under a keep-or-erase chain:
every returned polyline consists solely of strictly-outside segments. -/
lemma filterLine_good (caps : List Capsule) (g : UniformGrid) (pts : List ℚ)
    (hcaps : caps ≠ []) (hch : List.Chain' (KeepOrErase caps g) (toPairs pts)) :
    ∀ s ∈ filterLineByEraserPx pts caps g, GoodPoly caps g s := by
  unfold filterLineByEraserPx
  rw [if_neg (by simp [hcaps])]
  exact filterGo_good caps g (toPairs pts) [] [] hch (by intro s hs; cases hs) (Or.inl rfl)

/-- Claim C8, counterexample: re-erasure is not idempotent.  For the
segment (0,0)-(1,0) against a single capsule (centerline
x = 11/10 - 3/2^20, radius 3/5), the first pass clips at x = 1/2, but the
clip point classifies as inside the eraser, so a second pass with the very
same capsules and grid clips again, moving the endpoint to
262143/524288. -/
theorem C8_counterexample :
    filterLineByEraserPx [0, 0, 1, 0] [⟨(11 / 10 - 3 / 1048576, -1), (11 / 10 - 3 / 1048576, 1), 3 / 5⟩]
        (buildEraserGrid 2 2 (3 / 5)
          [⟨(11 / 10 - 3 / 1048576, -1), (11 / 10 - 3 / 1048576, 1), 3 / 5⟩]) =
      [[0, 0, 1 / 2, 0]] ∧
    filterLineByEraserPx [0, 0, 1 / 2, 0]
        [⟨(11 / 10 - 3 / 1048576, -1), (11 / 10 - 3 / 1048576, 1), 3 / 5⟩]
        (buildEraserGrid 2 2 (3 / 5)
          [⟨(11 / 10 - 3 / 1048576, -1), (11 / 10 - 3 / 1048576, 1), 3 / 5⟩]) =
      [[0, 0, 262143 / 524288, 0]] ∧
    ([[0, 0, (262143 : ℚ) / 524288, 0]] : List (List ℚ)) ≠ [[0, 0, 1 / 2, 0]] := by
  refine ⟨?_, ?_, ?_⟩
  · with_unfolding_all rfl
  · with_unfolding_all rfl
  · with_unfolding_all decide

/-- Claim C8, amended: applying the same eraser stroke (same capsules and
grid) twice yields the same result as applying it once, PROVIDED every
segment of the polyline is either strictly outside the eraser or fully
erased (not quick-accepted, both endpoints inside).  When a segment is
clipped by bisection the clip point itself classifies as inside the
eraser, so a second pass can clip again (see the counterexample) and
idempotence holds only up to the bisection tolerance. -/
theorem C8_theorem (pts : List ℚ) (caps : List Capsule) (g : UniformGrid)
    (hch : List.Chain' (KeepOrErase caps g) (toPairs pts)) :
    ((filterLineByEraserPx pts caps g).map fun s => filterLineByEraserPx s caps g).flatten =
      filterLineByEraserPx pts caps g := by
  by_cases hcaps : caps = []
  · subst hcaps
    unfold filterLineByEraserPx
    simp
  · have hgood := filterLine_good caps g pts hcaps hch
    have hmap : (filterLineByEraserPx pts caps g).map
        (fun s => filterLineByEraserPx s caps g) =
        (filterLineByEraserPx pts caps g).map fun s => [s] := by
      refine List.map_congr_left ?_
      intro s hs
      obtain ⟨ql, rfl, hlen, hchq⟩ := hgood s hs
      exact filterLine_all_out caps g ql hcaps hlen hchq
    rw [hmap]
    induction filterLineByEraserPx pts caps g with
    | nil => rfl
    | cons s rest ih =>
      simp_all

/-- Claim C8, witness: idempotence on a concrete polyline whose single
segment lies strictly outside the eraser. -/
theorem C8_witness :
    ((filterLineByEraserPx [0, 0, 1 / 4, 0]
          [⟨(1, -1), (1, 1), 1 / 2⟩] (buildEraserGrid 2 2 (1 / 2) [⟨(1, -1), (1, 1), 1 / 2⟩])).map
        fun s => filterLineByEraserPx s [⟨(1, -1), (1, 1), 1 / 2⟩]
          (buildEraserGrid 2 2 (1 / 2) [⟨(1, -1), (1, 1), 1 / 2⟩])).flatten =
      filterLineByEraserPx [0, 0, 1 / 4, 0] [⟨(1, -1), (1, 1), 1 / 2⟩]
        (buildEraserGrid 2 2 (1 / 2) [⟨(1, -1), (1, 1), 1 / 2⟩]) :=
  C8_theorem [0, 0, 1 / 4, 0] [⟨(1, -1), (1, 1), 1 / 2⟩]
    (buildEraserGrid 2 2 (1 / 2) [⟨(1, -1), (1, 1), 1 / 2⟩])
    (by
      refine List.chain'_pair.2 (Or.inl ?_)
      with_unfolding_all rfl)

/-
  ===========================================================================
  Claim C4: geometric side (the grid filter never hides a hit)
  ===========================================================================
-/

/-- Stage 1 always yields 0 <= sN <= sD and 0 <= tD. -/
lemma paramStage1_inv (a b c d e D : ℚ) (hc : 0 ≤ c) (hD : 0 ≤ D) :
    0 ≤ (paramStage1 a b c d e D).1 ∧
    (paramStage1 a b c d e D).1 ≤ (paramStage1 a b c d e D).2.1 ∧
    0 ≤ (paramStage1 a b c d e D).2.2.2 := by
  unfold paramStage1
  split_ifs with h1 h2 h3 <;>
    refine ⟨?_, ?_, ?_⟩ <;> dsimp only <;> linarith

/-- Stage 2 preserves 0 <= sN <= sD and establishes 0 <= tN <= tD. -/
lemma paramStage2_inv (a b d : ℚ) (q : ℚ × ℚ × ℚ × ℚ) (ha : 0 ≤ a)
    (h1 : 0 ≤ q.1) (h2 : q.1 ≤ q.2.1) (h3 : 0 ≤ q.2.2.2) :
    0 ≤ (paramStage2 a b d q).1 ∧
    (paramStage2 a b d q).1 ≤ (paramStage2 a b d q).2.1 ∧
    0 ≤ (paramStage2 a b d q).2.2.1 ∧
    (paramStage2 a b d q).2.2.1 ≤ (paramStage2 a b d q).2.2.2 := by
  unfold paramStage2
  split_ifs with g1 g2 g3 g4 g5 g6 <;>
    refine ⟨?_, ?_, ?_, ?_⟩ <;> dsimp only <;> linarith

/-- The clamped fraction of a numerator within [0, denominator] lies in
[0, 1]. -/
lemma clampFrac_mem (n d : ℚ) (h0 : 0 ≤ n) (h1 : n ≤ d) :
    0 ≤ clampFrac n d ∧ clampFrac n d ≤ 1 := by
  unfold clampFrac
  split_ifs with h
  · norm_num
  · have hn : epsD ≤ n := by
      rw [abs_of_nonneg h0] at h
      linarith [not_lt.1 h]
    have hd : 0 < d := lt_of_lt_of_le (lt_of_lt_of_le (by norm_num [epsD]) hn) h1
    exact ⟨div_nonneg h0 hd.le, (div_le_one hd).2 h1⟩

/-- Both parameters computed by the closest-point routine lie in [0, 1]:
the closest points it reports are genuinely on the two segments. -/
lemma closestParams_mem (ux uy vx vy wx wy : ℚ) :
    0 ≤ (closestParams ux uy vx vy wx wy).1 ∧ (closestParams ux uy vx vy wx wy).1 ≤ 1 ∧
    0 ≤ (closestParams ux uy vx vy wx wy).2 ∧ (closestParams ux uy vx vy wx wy).2 ≤ 1 := by
  unfold closestParams
  have ha : (0 : ℚ) ≤ dotP ux uy ux uy := by
    unfold dotP
    nlinarith [sq_nonneg ux, sq_nonneg uy]
  have hc : (0 : ℚ) ≤ dotP vx vy vx vy := by
    unfold dotP
    nlinarith [sq_nonneg vx, sq_nonneg vy]
  have hD : (0 : ℚ) ≤ dotP ux uy ux uy * dotP vx vy vx vy -
      dotP ux uy vx vy * dotP ux uy vx vy := by
    unfold dotP
    nlinarith [sq_nonneg (ux * vy - uy * vx)]
  obtain ⟨i1, i2, i3⟩ := paramStage1_inv (dotP ux uy ux uy) (dotP ux uy vx vy)
    (dotP vx vy vx vy) (dotP ux uy wx wy) (dotP vx vy wx wy)
    (dotP ux uy ux uy * dotP vx vy vx vy - dotP ux uy vx vy * dotP ux uy vx vy) hc hD
  obtain ⟨j1, j2, j3, j4⟩ := paramStage2_inv (dotP ux uy ux uy) (dotP ux uy vx vy)
    (dotP ux uy wx wy) _ ha i1 i2 i3
  obtain ⟨k1, k2⟩ := clampFrac_mem _ _ j1 j2
  obtain ⟨k3, k4⟩ := clampFrac_mem _ _ j3 j4
  exact ⟨k1, k2, k3, k4⟩

/-- A convex combination of two coordinates stays inside their interval. -/
lemma convex_box (x y s : ℚ) (h0 : 0 ≤ s) (h1 : s ≤ 1) :
    min x y ≤ x + s * (y - x) ∧ x + s * (y - x) ≤ max x y := by
  rcases le_total x y with hxy | hxy
  · rw [min_eq_left hxy, max_eq_right hxy]
    constructor <;> nlinarith
  · rw [min_eq_right hxy, max_eq_left hxy]
    constructor <;> nlinarith

/-- Arithmetic core of the separation argument: if the two boxes inflated
by R and by the capsule radius are separated along some axis, any point of
the first segment is farther than the radius from any point of the capsule
centerline. -/
lemma sepCore (px py qx qy R : ℚ) (cap : Capsule) (s t : ℚ)
    (hs0 : 0 ≤ s) (hs1 : s ≤ 1) (ht0 : 0 ≤ t) (ht1 : t ≤ 1)
    (hR : 0 ≤ R) (hr : 0 ≤ cap.r)
    (hov2 : max px qx + R < min cap.p.1 cap.q.1 - cap.r ∨
      max cap.p.1 cap.q.1 + cap.r < min px qx - R ∨
      max py qy + R < min cap.p.2 cap.q.2 - cap.r ∨
      max cap.p.2 cap.q.2 + cap.r < min py qy - R) :
    cap.r * cap.r <
      (px + s * (qx - px) - (cap.p.1 + t * (cap.q.1 - cap.p.1))) *
        (px + s * (qx - px) - (cap.p.1 + t * (cap.q.1 - cap.p.1))) +
      (py + s * (qy - py) - (cap.p.2 + t * (cap.q.2 - cap.p.2))) *
        (py + s * (qy - py) - (cap.p.2 + t * (cap.q.2 - cap.p.2))) := by
  obtain ⟨hax1, hax2⟩ := convex_box px qx s hs0 hs1
  obtain ⟨hay1, hay2⟩ := convex_box py qy s hs0 hs1
  obtain ⟨hbx1, hbx2⟩ := convex_box cap.p.1 cap.q.1 t ht0 ht1
  obtain ⟨hby1, hby2⟩ := convex_box cap.p.2 cap.q.2 t ht0 ht1
  set Ax := px + s * (qx - px) with hAx
  set Ay := py + s * (qy - py) with hAy
  set Bx := cap.p.1 + t * (cap.q.1 - cap.p.1) with hBx
  set By2 := cap.p.2 + t * (cap.q.2 - cap.p.2) with hBy2
  have hyflip : (By2 - Ay) * (By2 - Ay) = (Ay - By2) * (Ay - By2) := by ring
  have hxflip : (Bx - Ax) * (Bx - Ax) = (Ax - Bx) * (Ax - Bx) := by ring
  have hysq : 0 ≤ (Ay - By2) * (Ay - By2) := mul_self_nonneg _
  have hxsq : 0 ≤ (Ax - Bx) * (Ax - Bx) := mul_self_nonneg _
  rcases hov2 with h | h | h | h
  · have hgt : cap.r < Bx - Ax := by linarith
    have hm := mul_self_lt_mul_self hr hgt
    linarith
  · have hgt : cap.r < Ax - Bx := by linarith
    have hm := mul_self_lt_mul_self hr hgt
    linarith
  · have hgt : cap.r < By2 - Ay := by linarith
    have hm := mul_self_lt_mul_self hr hgt
    linarith
  · have hgt : cap.r < Ay - By2 := by linarith
    have hm := mul_self_lt_mul_self hr hgt
    linarith

/-- Separation: when a capsule's inflated AABB does not overlap the
segment's AABB inflated by any nonnegative R, the segment-to-capsule test
is strictly positive (the capsule is missed by more than its radius). -/
lemma segCapsuleDist2_pos_of_no_overlap (px py qx qy R : ℚ) (cap : Capsule)
    (hR : 0 ≤ R) (hr : 0 ≤ cap.r)
    (hov : aabbOverlapB (aabbInflate (segAabb px py qx qy) R) cap.aabb = false) :
    0 < segCapsuleDist2 px py qx qy cap := by
  obtain ⟨hs0, hs1, ht0, ht1⟩ := closestParams_mem (qx - px) (qy - py)
    (cap.q.1 - cap.p.1) (cap.q.2 - cap.p.2) (px - cap.p.1) (py - cap.p.2)
  have hov2 : max px qx + R < min cap.p.1 cap.q.1 - cap.r ∨
      max cap.p.1 cap.q.1 + cap.r < min px qx - R ∨
      max py qy + R < min cap.p.2 cap.q.2 - cap.r ∨
      max cap.p.2 cap.q.2 + cap.r < min py qy - R := by
    simp only [aabbOverlapB, Capsule.aabb, aabbInflate, segAabb, Bool.not_eq_false',
      Bool.or_eq_true, decide_eq_true_eq] at hov
    tauto
  have key := sepCore px py qx qy R cap
    (closestParams (qx - px) (qy - py) (cap.q.1 - cap.p.1) (cap.q.2 - cap.p.2)
      (px - cap.p.1) (py - cap.p.2)).1
    (closestParams (qx - px) (qy - py) (cap.q.1 - cap.p.1) (cap.q.2 - cap.p.2)
      (px - cap.p.1) (py - cap.p.2)).2
    hs0 hs1 ht0 ht1 hR hr hov2
  have heq : segCapsuleDist2 px py qx qy cap =
      (px + (closestParams (qx - px) (qy - py) (cap.q.1 - cap.p.1) (cap.q.2 - cap.p.2)
          (px - cap.p.1) (py - cap.p.2)).1 * (qx - px) -
        (cap.p.1 + (closestParams (qx - px) (qy - py) (cap.q.1 - cap.p.1)
          (cap.q.2 - cap.p.2) (px - cap.p.1) (py - cap.p.2)).2 * (cap.q.1 - cap.p.1))) *
        (px + (closestParams (qx - px) (qy - py) (cap.q.1 - cap.p.1) (cap.q.2 - cap.p.2)
          (px - cap.p.1) (py - cap.p.2)).1 * (qx - px) -
        (cap.p.1 + (closestParams (qx - px) (qy - py) (cap.q.1 - cap.p.1)
          (cap.q.2 - cap.p.2) (px - cap.p.1) (py - cap.p.2)).2 * (cap.q.1 - cap.p.1))) +
      (py + (closestParams (qx - px) (qy - py) (cap.q.1 - cap.p.1) (cap.q.2 - cap.p.2)
          (px - cap.p.1) (py - cap.p.2)).1 * (qy - py) -
        (cap.p.2 + (closestParams (qx - px) (qy - py) (cap.q.1 - cap.p.1)
          (cap.q.2 - cap.p.2) (px - cap.p.1) (py - cap.p.2)).2 * (cap.q.2 - cap.p.2))) *
        (py + (closestParams (qx - px) (qy - py) (cap.q.1 - cap.p.1) (cap.q.2 - cap.p.2)
          (px - cap.p.1) (py - cap.p.2)).1 * (qy - py) -
        (cap.p.2 + (closestParams (qx - px) (qy - py) (cap.q.1 - cap.p.1)
          (cap.q.2 - cap.p.2) (px - cap.p.1) (py - cap.p.2)).2 * (cap.q.2 - cap.p.2))) -
      cap.r * cap.r := rfl
  rw [heq]
  linarith [key]

/-- The hand-rolled floor agrees with the mathematical floor. -/
lemma ratFloor_eq (x : ℚ) : ratFloor x = ⌊x⌋ := Rat.floor_def.symm

/-- Python `int()` truncation is monotone. -/
lemma ratTrunc_mono {x y : ℚ} (h : x ≤ y) : ratTrunc x ≤ ratTrunc y := by
  unfold ratTrunc
  rw [ratFloor_eq, ratFloor_eq, ratFloor_eq, ratFloor_eq]
  split_ifs with h1 h2 h2
  · exact Int.floor_le_floor h
  · linarith
  · have e1 : (0 : ℤ) ≤ ⌊-x⌋ := Int.floor_nonneg.2 (by linarith)
    have e2 : (0 : ℤ) ≤ ⌊y⌋ := Int.floor_nonneg.2 h2
    omega
  · have := Int.floor_le_floor (neg_le_neg h)
    omega

/-- Index clamping is monotone. -/
lemma clampIdx_mono {i j : ℤ} (n : ℕ) (h : i ≤ j) : clampIdx i n ≤ clampIdx j n := by
  unfold clampIdx
  split_ifs <;> omega

/-- A clamped index is always a valid cell index when there is at least one
cell. -/
lemma clampIdx_lt (i : ℤ) {n : ℕ} (h : 1 ≤ n) : clampIdx i n < n := by
  unfold clampIdx
  split_ifs <;> omega

/-- The column index is monotone in x when the cell size is positive. -/
lemma gridIx_mono (g : UniformGrid) {x y : ℚ} (hc : 0 < g.cell) (h : x ≤ y) :
    gridIx g x ≤ gridIx g y := by
  unfold gridIx
  refine clampIdx_mono g.nx (ratTrunc_mono ((div_le_div_iff_of_pos_right hc).2 (by linarith)))

/-- The row index is monotone in y when the cell size is positive. -/
lemma gridIy_mono (g : UniformGrid) {x y : ℚ} (hc : 0 < g.cell) (h : x ≤ y) :
    gridIy g x ≤ gridIy g y := by
  unfold gridIy
  refine clampIdx_mono g.ny (ratTrunc_mono ((div_le_div_iff_of_pos_right hc).2 (by linarith)))

/-- A cell in the scanned rectangle is among the flat bucket indices of an
AABB query. -/
lemma mem_cellIndicesOf (g : UniformGrid) (a : Aabb) (ix iy : ℕ)
    (hx0 : gridIx g a.1 ≤ ix) (hx1 : ix ≤ gridIx g a.2.2.1)
    (hy0 : gridIy g a.2.1 ≤ iy) (hy1 : iy ≤ gridIy g a.2.2.2) :
    iy * g.nx + ix ∈ cellIndicesOf g a := by
  unfold cellIndicesOf
  refine List.mem_flatMap.2 ⟨ix, List.mem_range'_1.2 ⟨hx0, by omega⟩,
    List.mem_map.2 ⟨iy, List.mem_range'_1.2 ⟨hy0, by omega⟩, rfl⟩⟩

/-- Every flat bucket index produced by a query is in range when the grid
has at least one row and column. -/
lemma cellIndicesOf_lt (g : UniformGrid) (a : Aabb) (h1 : 1 ≤ g.nx) (h2 : 1 ≤ g.ny) :
    ∀ ci ∈ cellIndicesOf g a, ci < g.nx * g.ny := by
  intro ci hci
  unfold cellIndicesOf at hci
  obtain ⟨ix, hix, hmap⟩ := List.mem_flatMap.1 hci
  obtain ⟨iy, hiy, rfl⟩ := List.mem_map.1 hmap
  obtain ⟨_, hix2⟩ := List.mem_range'_1.1 hix
  obtain ⟨_, hiy2⟩ := List.mem_range'_1.1 hiy
  have hx : gridIx g a.2.2.1 < g.nx := clampIdx_lt _ h1
  have hy : gridIy g a.2.2.2 < g.ny := clampIdx_lt _ h2
  have hxlt : ix < g.nx := by omega
  have hylt : iy < g.ny := by omega
  calc iy * g.nx + ix < iy * g.nx + g.nx := by omega
    _ = (iy + 1) * g.nx := by ring
    _ ≤ g.ny * g.nx := Nat.mul_le_mul_right g.nx (by omega)
    _ = g.nx * g.ny := Nat.mul_comm g.ny g.nx

/-- Appending to one bucket preserves the bucket count. -/
lemma modifyAt_length (l : List (List ℕ)) (i v : ℕ) :
    (modifyAt l i v).length = l.length := by
  induction l generalizing i with
  | nil => rfl
  | cons x xs ih =>
    cases i with
    | zero => rfl
    | succ n => exact congrArg Nat.succ (ih n)

/-- Reading the modified bucket after an in-range append. -/
lemma getD_modifyAt_self (l : List (List ℕ)) (i v : ℕ) (h : i < l.length) :
    (modifyAt l i v).getD i [] = l.getD i [] ++ [v] := by
  induction l generalizing i with
  | nil => cases h
  | cons x xs ih =>
    cases i with
    | zero => rfl
    | succ n => exact ih n (Nat.lt_of_succ_lt_succ h)

/-- Reading an untouched bucket. -/
lemma getD_modifyAt_ne (l : List (List ℕ)) (i j v : ℕ) (h : i ≠ j) :
    (modifyAt l i v).getD j [] = l.getD j [] := by
  induction l generalizing i j with
  | nil => rfl
  | cons x xs ih =>
    cases i with
    | zero =>
      cases j with
      | zero => exact absurd rfl h
      | succ m => rfl
    | succ n =>
      cases j with
      | zero => rfl
      | succ m => exact ih n m (by omega)

/-- An out-of-range append is a no-op. -/
lemma modifyAt_oob (l : List (List ℕ)) (i v : ℕ) (h : ¬i < l.length) :
    modifyAt l i v = l := by
  induction l generalizing i with
  | nil => rfl
  | cons y ys ih =>
    cases i with
    | zero => exact absurd (by simp) h
    | succ n =>
      show y :: modifyAt ys n v = y :: ys
      rw [ih n (by simp at h ⊢; omega)]

/-- Appending to a bucket never removes elements from any bucket. -/
lemma mem_getD_modifyAt (l : List (List ℕ)) (i j v x : ℕ)
    (h : x ∈ l.getD j []) : x ∈ (modifyAt l i v).getD j [] := by
  by_cases hij : i = j
  · subst hij
    by_cases hlt : i < l.length
    · rw [getD_modifyAt_self l i v hlt]
      exact List.mem_append_left _ h
    · rw [modifyAt_oob l i v hlt]
      exact h
  · rw [getD_modifyAt_ne l i j v hij]
    exact h

/-- Conversely, a member of a modified bucket was already there or is the
appended index. -/
lemma mem_getD_modifyAt_src (l : List (List ℕ)) (i j v x : ℕ)
    (h : x ∈ (modifyAt l i v).getD j []) : x ∈ l.getD j [] ∨ x = v := by
  by_cases hij : i = j
  · subst hij
    by_cases hlt : i < l.length
    · rw [getD_modifyAt_self l i v hlt] at h
      rcases List.mem_append.1 h with h2 | h2
      · exact Or.inl h2
      · exact Or.inr (List.mem_singleton.1 h2)
    · rw [modifyAt_oob l i v hlt] at h
      exact Or.inl h
  · rw [getD_modifyAt_ne l i j v hij] at h
    exact Or.inl h

/-- Folding bucket appends over a cell list: existing members survive. -/
lemma mem_foldl_modifyAt_mono (cs : List ℕ) (v : ℕ) :
    ∀ (bs : List (List ℕ)) (j x : ℕ), x ∈ bs.getD j [] →
      x ∈ (cs.foldl (fun bs2 ci => modifyAt bs2 ci v) bs).getD j [] := by
  induction cs with
  | nil => intro bs j x h; exact h
  | cons c rest ih =>
    intro bs j x h
    exact ih _ j x (mem_getD_modifyAt bs c j v x h)

/-- Folding bucket appends preserves the bucket count. -/
lemma foldl_modifyAt_length (cs : List ℕ) (v : ℕ) (bs : List (List ℕ)) :
    (cs.foldl (fun bs2 ci => modifyAt bs2 ci v) bs).length = bs.length := by
  induction cs generalizing bs with
  | nil => rfl
  | cons c rest ih => rw [List.foldl_cons, ih, modifyAt_length]

/-- Folding bucket appends over a cell list: every listed in-range cell
receives the new index. -/
lemma mem_foldl_modifyAt_self (cs : List ℕ) (v : ℕ) :
    ∀ (bs : List (List ℕ)) (ci : ℕ), ci ∈ cs → ci < bs.length →
      v ∈ (cs.foldl (fun bs2 ci2 => modifyAt bs2 ci2 v) bs).getD ci [] := by
  induction cs with
  | nil => intro bs ci h; cases h
  | cons c rest ih =>
    intro bs ci hmem hlt
    rcases List.mem_cons.1 hmem with rfl | hmem2
    · refine mem_foldl_modifyAt_mono rest v _ ci v ?_
      rw [getD_modifyAt_self bs ci v hlt]
      exact List.mem_append_right _ (List.mem_singleton.2 rfl)
    · exact ih _ ci hmem2 (by rw [modifyAt_length]; exact hlt)

/-- Inserting a capsule does not change the grid geometry, only the
buckets; in particular every query scans the same cells. -/
lemma cellIndicesOf_insertCapsule (g : UniformGrid) (idx : ℕ) (a b : Aabb) :
    cellIndicesOf (insertCapsule g idx a) b = cellIndicesOf g b := rfl

/-- The fold inserting a pair list leaves the grid geometry untouched. -/
lemma insertFold_geom (ps : List (ℕ × Capsule)) (g : UniformGrid) :
    (ps.foldl (fun g2 ic => insertCapsule g2 ic.1 ic.2.aabb) g).minx = g.minx ∧
    (ps.foldl (fun g2 ic => insertCapsule g2 ic.1 ic.2.aabb) g).miny = g.miny ∧
    (ps.foldl (fun g2 ic => insertCapsule g2 ic.1 ic.2.aabb) g).cell = g.cell ∧
    (ps.foldl (fun g2 ic => insertCapsule g2 ic.1 ic.2.aabb) g).nx = g.nx ∧
    (ps.foldl (fun g2 ic => insertCapsule g2 ic.1 ic.2.aabb) g).ny = g.ny ∧
    (ps.foldl (fun g2 ic => insertCapsule g2 ic.1 ic.2.aabb) g).buckets.length =
      g.buckets.length := by
  induction ps generalizing g with
  | nil => exact ⟨rfl, rfl, rfl, rfl, rfl, rfl⟩
  | cons p rest ih =>
    obtain ⟨e1, e2, e3, e4, e5, e6⟩ := ih (insertCapsule g p.1 p.2.aabb)
    rw [List.foldl_cons]
    exact ⟨e1.trans rfl, e2.trans rfl, e3.trans rfl, e4.trans rfl, e5.trans rfl,
      e6.trans (foldl_modifyAt_length (cellIndicesOf g p.2.aabb) p.1 g.buckets)⟩

/-- Queries on a grid with the same geometry scan the same cells (the cell
list does not read the buckets). -/
lemma cellIndicesOf_congr (g g2 : UniformGrid) (hminx : g2.minx = g.minx)
    (hminy : g2.miny = g.miny) (hcell : g2.cell = g.cell) (hnx : g2.nx = g.nx)
    (hny : g2.ny = g.ny) (a : Aabb) : cellIndicesOf g2 a = cellIndicesOf g a := by
  unfold cellIndicesOf gridIx gridIy
  rw [hminx, hminy, hcell, hnx, hny]

/-- Members of a bucket fold come from the initial buckets or are the
appended index. -/
lemma mem_foldl_modifyAt_src (cs : List ℕ) (v : ℕ) :
    ∀ (bs : List (List ℕ)) (j x : ℕ),
      x ∈ (cs.foldl (fun bs2 ci => modifyAt bs2 ci v) bs).getD j [] →
      x ∈ bs.getD j [] ∨ x = v := by
  induction cs with
  | nil =>
    intro bs j x h
    exact Or.inl h
  | cons c rest ih =>
    intro bs j x h
    rcases ih (modifyAt bs c v) j x h with h2 | h2
    · exact mem_getD_modifyAt_src bs c j v x h2
    · exact Or.inr h2

/-- Members of the fold's buckets come from the initial buckets or from the
inserted pair indices. -/
lemma mem_insertFold_buckets (ps : List (ℕ × Capsule)) :
    ∀ (g : UniformGrid) (ci x : ℕ),
      x ∈ (ps.foldl (fun g2 ic => insertCapsule g2 ic.1 ic.2.aabb) g).buckets.getD ci [] →
      x ∈ g.buckets.getD ci [] ∨ ∃ p ∈ ps, p.1 = x := by
  induction ps with
  | nil =>
    intro g ci x h
    exact Or.inl h
  | cons p rest ih =>
    intro g ci x h
    rcases ih (insertCapsule g p.1 p.2.aabb) ci x h with h2 | ⟨q, hq, hqx⟩
    · rcases mem_foldl_modifyAt_src (cellIndicesOf g p.2.aabb) p.1 g.buckets ci x h2 with
        h3 | h3
      · exact Or.inl h3
      · exact Or.inr ⟨p, List.mem_cons_self p rest, h3.symm⟩
    · exact Or.inr ⟨q, List.mem_cons_of_mem p hq, hqx⟩

/-- Existing bucket members survive inserting more capsules. -/
lemma mem_insertFold_mono (ps : List (ℕ × Capsule)) :
    ∀ (g : UniformGrid) (ci x : ℕ), x ∈ g.buckets.getD ci [] →
      x ∈ (ps.foldl (fun g2 ic => insertCapsule g2 ic.1 ic.2.aabb) g).buckets.getD ci [] := by
  induction ps with
  | nil => intro g ci x h; exact h
  | cons p rest ih =>
    intro g ci x h
    rw [List.foldl_cons]
    exact ih _ ci x (mem_foldl_modifyAt_mono (cellIndicesOf g p.2.aabb) p.1 g.buckets ci x h)

/-- Each inserted pair lands in every cell its AABB overlaps. -/
lemma mem_insertFold_self (ps : List (ℕ × Capsule)) :
    ∀ (g : UniformGrid), ∀ p ∈ ps, ∀ ci ∈ cellIndicesOf g p.2.aabb, ci < g.buckets.length →
      p.1 ∈ (ps.foldl (fun g2 ic => insertCapsule g2 ic.1 ic.2.aabb) g).buckets.getD ci [] := by
  induction ps with
  | nil => intro g p hp; cases hp
  | cons p0 rest ih =>
    intro g p hp ci hci hlt
    rcases List.mem_cons.1 hp with rfl | hp2
    · rw [List.foldl_cons]
      refine mem_insertFold_mono rest _ ci p.1 ?_
      exact mem_foldl_modifyAt_self (cellIndicesOf g p.2.aabb) p.1 g.buckets ci hci hlt
    · rw [List.foldl_cons]
      refine ih (insertCapsule g p0.1 p0.2.aabb) p hp2 ci ?_ ?_
      · rw [cellIndicesOf_insertCapsule]
        exact hci
      · show ci < ((cellIndicesOf g p0.2.aabb).foldl (fun bs ci2 => modifyAt bs ci2 p0.1)
          g.buckets).length
        rw [foldl_modifyAt_length]
        exact hlt

/-- Deduplication membership: exactly the unseen elements of the input. -/
lemma mem_dedupAux (x : ℕ) : ∀ (l seen : List ℕ),
    x ∈ dedupAux seen l ↔ x ∈ l ∧ x ∉ seen := by
  intro l
  induction l with
  | nil => intro seen; simp [dedupAux]
  | cons y ys ih =>
    intro seen
    rw [dedupAux]
    split_ifs with hy
    · rw [ih seen]
      constructor
      · rintro ⟨h1, h2⟩
        exact ⟨List.mem_cons_of_mem y h1, h2⟩
      · rintro ⟨h1, h2⟩
        rcases List.mem_cons.1 h1 with rfl | h3
        · exact absurd hy h2
        · exact ⟨h3, h2⟩
    · constructor
      · intro h
        rcases List.mem_cons.1 h with rfl | h2
        · exact ⟨List.mem_cons_self x ys, hy⟩
        · obtain ⟨h3, h4⟩ := (ih (y :: seen)).1 h2
          exact ⟨List.mem_cons_of_mem y h3, fun hx => h4 (List.mem_cons_of_mem y hx)⟩
      · rintro ⟨h1, h2⟩
        rcases List.mem_cons.1 h1 with rfl | h3
        · exact List.mem_cons_self x _
        · by_cases hxy : x = y
          · subst hxy
            exact List.mem_cons_self x _
          · exact List.mem_cons_of_mem y ((ih (y :: seen)).2
              ⟨h3, fun hx => (List.mem_cons.1 hx).elim hxy h2⟩)

/-- Deduplication yields a list without duplicates. -/
lemma dedupAux_nodup : ∀ (l seen : List ℕ), (dedupAux seen l).Nodup := by
  intro l
  induction l with
  | nil => intro seen; simp [dedupAux]
  | cons y ys ih =>
    intro seen
    rw [dedupAux]
    split_ifs with hy
    · exact ih seen
    · refine List.nodup_cons.2 ⟨?_, ih (y :: seen)⟩
      intro hmem
      exact ((mem_dedupAux y ys (y :: seen)).1 hmem).2 (List.mem_cons_self y seen)

/-- A capsule index found in a scanned bucket is among the candidates. -/
lemma mem_candidatesForAabb (g : UniformGrid) (a : Aabb) (i ci : ℕ)
    (hci : ci ∈ cellIndicesOf g a) (hb : i ∈ bucketAt g ci) :
    i ∈ candidatesForAabb g a := by
  unfold candidatesForAabb
  refine (mem_dedupAux i _ []).2 ⟨?_, by simp⟩
  exact List.mem_flatMap.2 ⟨ci, hci, hb⟩

/-- Every candidate index occurs in some scanned bucket. -/
lemma candidatesForAabb_sub (g : UniformGrid) (a : Aabb) (i : ℕ)
    (h : i ∈ candidatesForAabb g a) : ∃ ci ∈ cellIndicesOf g a, i ∈ bucketAt g ci := by
  unfold candidatesForAabb at h
  obtain ⟨h1, _⟩ := (mem_dedupAux i _ []).1 h
  exact List.mem_flatMap.1 h1

/-- The accumulator of the running maximum never decreases. -/
lemma le_foldl_maxR (cs : List Capsule) : ∀ acc : ℚ,
    acc ≤ cs.foldl (fun m k => max m k.r) acc := by
  induction cs with
  | nil => intro acc; exact le_refl acc
  | cons c rest ih =>
    intro acc
    exact le_trans (le_max_left acc c.r) (ih (max acc c.r))

/-- A member's radius is bounded by the running maximum, whatever the
accumulator. -/
lemma mem_le_foldl_maxR (cs : List Capsule) : ∀ (acc : ℚ), ∀ c ∈ cs,
    c.r ≤ cs.foldl (fun m k => max m k.r) acc := by
  induction cs with
  | nil => intro acc c hc; cases hc
  | cons c1 rest ih =>
    intro acc c hc
    rcases List.mem_cons.1 hc with rfl | hc2
    · exact le_trans (le_max_right acc c.r) (le_foldl_maxR rest (max acc c.r))
    · exact ih (max acc c1.r) c hc2

/-- Every capsule radius is bounded by the list maximum. -/
lemma le_maxR (caps : List Capsule) : ∀ c ∈ caps, c.r ≤ maxR caps := by
  match caps with
  | [] => intro c hc; cases hc
  | c0 :: cs =>
    intro c hc
    rcases List.mem_cons.1 hc with rfl | hc2
    · exact le_foldl_maxR cs c.r
    · exact mem_le_foldl_maxR cs c0.r c hc2

/-- Geometry of the per-eraser grid: origin (0,0), cell `max 8 r`, and the
dimensions of the freshly initialized grid; the bucket count is nx * ny. -/
lemma buildGrid_geom (W H r : ℚ) (caps : List Capsule) :
    (buildEraserGrid W H r caps).minx = 0 ∧
    (buildEraserGrid W H r caps).miny = 0 ∧
    (buildEraserGrid W H r caps).cell = max 8 r ∧
    (buildEraserGrid W H r caps).nx = (gridInit 0 0 W H (max 8 r)).nx ∧
    (buildEraserGrid W H r caps).ny = (gridInit 0 0 W H (max 8 r)).ny ∧
    (buildEraserGrid W H r caps).buckets.length =
      (gridInit 0 0 W H (max 8 r)).nx * (gridInit 0 0 W H (max 8 r)).ny := by
  obtain ⟨e1, e2, e3, e4, e5, e6⟩ := insertFold_geom caps.enum (gridInit 0 0 W H (max 8 r))
  refine ⟨e1, e2, e3, e4, e5, e6.trans ?_⟩
  simp [gridInit]

/-- The truncated maximum with 1 is at least 1. -/
lemma int_one_le_toNat_max (x : ℤ) : 1 ≤ (max 1 x).toNat := by
  have h := le_max_left 1 x
  omega

/-- The initialized grid has at least one column and one row. -/
lemma gridInit_dims_pos (minx miny maxx maxy cell : ℚ) :
    1 ≤ (gridInit minx miny maxx maxy cell).nx ∧
    1 ≤ (gridInit minx miny maxx maxy cell).ny :=
  ⟨int_one_le_toNat_max _, int_one_le_toNat_max _⟩

/-- The grid cell size `max(8.0, r_px)` is positive. -/
lemma cellSize_pos (r : ℚ) : 0 < max 8 r :=
  lt_of_lt_of_le (by norm_num) (le_max_left 8 r)

/-- A capsule's stored AABB is well-formed when its radius is
nonnegative. -/
lemma capsule_aabb_wf (c : Capsule) (hr : 0 ≤ c.r) :
    c.aabb.1 ≤ c.aabb.2.2.1 ∧ c.aabb.2.1 ≤ c.aabb.2.2.2 := by
  unfold Capsule.aabb aabbInflate segAabb
  dsimp only
  constructor
  · linarith [min_le_max (a := c.p.1) (b := c.q.1)]
  · linarith [min_le_max (a := c.p.2) (b := c.q.2)]

/-- Grid completeness: any capsule whose stored AABB overlaps a
well-formed query AABB is found by the candidate scan of that query. -/
lemma overlap_mem_candidates (W H r : ℚ) (caps : List Capsule) (qa : Aabb) (i : ℕ)
    (hi : i < caps.length)
    (hqwf : qa.1 ≤ qa.2.2.1 ∧ qa.2.1 ≤ qa.2.2.2)
    (hrc : 0 ≤ (caps.get ⟨i, hi⟩).r)
    (hov : aabbOverlapB qa (caps.get ⟨i, hi⟩).aabb = true) :
    i ∈ candidatesForAabb (buildEraserGrid W H r caps) qa := by
  obtain ⟨g1, g2, g3, g4, g5, g6⟩ := buildGrid_geom W H r caps
  obtain ⟨d1, d2⟩ := gridInit_dims_pos 0 0 W H (max 8 r)
  have hcell : 0 < (buildEraserGrid W H r caps).cell := by
    rw [g3]
    exact cellSize_pos r
  have hnx : 1 ≤ (buildEraserGrid W H r caps).nx := by rw [g4]; exact d1
  have hny : 1 ≤ (buildEraserGrid W H r caps).ny := by rw [g5]; exact d2
  obtain ⟨cwf1, cwf2⟩ := capsule_aabb_wf (caps.get ⟨i, hi⟩) hrc
  have hov2 : (caps.get ⟨i, hi⟩).aabb.1 ≤ qa.2.2.1 ∧ qa.1 ≤ (caps.get ⟨i, hi⟩).aabb.2.2.1 ∧
      (caps.get ⟨i, hi⟩).aabb.2.1 ≤ qa.2.2.2 ∧ qa.2.1 ≤ (caps.get ⟨i, hi⟩).aabb.2.2.2 := by
    rw [aabbOverlapB] at hov
    simp only [Bool.not_eq_eq_eq_not, Bool.not_true, Bool.or_eq_false_iff,
      decide_eq_false_iff_not, not_lt] at hov
    exact ⟨hov.1.1.1, hov.1.1.2, hov.1.2, hov.2⟩
  set g := buildEraserGrid W H r caps with hgdef
  set cb := (caps.get ⟨i, hi⟩).aabb with hcb
  set ix := max (gridIx g qa.1) (gridIx g cb.1) with hix
  set iy := max (gridIy g qa.2.1) (gridIy g cb.2.1) with hiy
  have hciq : iy * g.nx + ix ∈ cellIndicesOf g qa := by
    refine mem_cellIndicesOf g qa ix iy (le_max_left _ _) ?_ (le_max_left _ _) ?_
    · exact max_le (gridIx_mono g hcell hqwf.1) (gridIx_mono g hcell hov2.1)
    · exact max_le (gridIy_mono g hcell hqwf.2) (gridIy_mono g hcell hov2.2.2.1)
  have hcic : iy * g.nx + ix ∈ cellIndicesOf g cb := by
    refine mem_cellIndicesOf g cb ix iy (le_max_right _ _) ?_ (le_max_right _ _) ?_
    · exact max_le (gridIx_mono g hcell hov2.2.1) (gridIx_mono g hcell cwf1)
    · exact max_le (gridIy_mono g hcell hov2.2.2.2) (gridIy_mono g hcell cwf2)
  have hlt : iy * g.nx + ix < g.buckets.length := by
    rw [g6, ← g4, ← g5]
    exact cellIndicesOf_lt g qa hnx hny _ hciq
  have hcell0 : cellIndicesOf (gridInit 0 0 W H (max 8 r)) cb = cellIndicesOf g cb := by
    refine (cellIndicesOf_congr (gridInit 0 0 W H (max 8 r)) g g1 g2 ?_ g4 g5 cb).symm
    rw [g3]
    rfl
  have hmem : (i, caps.get ⟨i, hi⟩) ∈ caps.enum := by
    rw [List.mk_mem_enum_iff_getElem?]
    simp [List.getElem?_eq_getElem hi]
  have hbucket : i ∈ bucketAt g (iy * g.nx + ix) := by
    show i ∈ g.buckets.getD (iy * g.nx + ix) []
    refine mem_insertFold_self caps.enum (gridInit 0 0 W H (max 8 r))
      (i, caps.get ⟨i, hi⟩) hmem (iy * g.nx + ix) ?_ ?_
    · rw [hcell0]
      exact hcic
    · have hlen : (gridInit 0 0 W H (max 8 r)).buckets.length = g.buckets.length := by
        rw [g6]
        simp [gridInit]
      rw [hlen]
      exact hlt
  exact mem_candidatesForAabb g qa i (iy * g.nx + ix) hciq hbucket

/-- A bucket of a freshly initialized grid is empty. -/
lemma getD_replicate_nil (n i : ℕ) :
    (List.replicate n ([] : List ℕ)).getD i [] = [] := by
  induction n generalizing i with
  | zero => cases i <;> rfl
  | succ m ih =>
    cases i with
    | zero => rfl
    | succ j => exact ih j

/-- Every candidate the grid yields is a genuine capsule index. -/
lemma candidates_lt_length (W H r : ℚ) (caps : List Capsule) (qa : Aabb) :
    ∀ i ∈ candidatesForAabb (buildEraserGrid W H r caps) qa, i < caps.length := by
  intro i h
  obtain ⟨ci, _, hb⟩ := candidatesForAabb_sub _ qa i h
  rcases mem_insertFold_buckets caps.enum (gridInit 0 0 W H (max 8 r)) ci i hb with h2 | h2
  · rw [show (gridInit 0 0 W H (max 8 r)).buckets = List.replicate _ ([] : List ℕ)
      from rfl, getD_replicate_nil] at h2
    cases h2
  · obtain ⟨p, hp, rfl⟩ := h2
    have := List.mem_enum_iff_getElem?.1 hp
    exact (List.getElem?_eq_some.1 this).1

/-- Sign characterization of the early-return minimum scan: it reports a
positive result exactly when the running best is positive and every
overlap-passing candidate tests strictly positive. -/
lemma segdGo_pos_iff (px py qx qy : ℚ) (caps : List Capsule) (a : Aabb) :
    ∀ (cands : List ℕ) (best : Option ℚ),
      posOpt (segdGo px py qx qy caps a cands best) = true ↔
        (posOpt best = true ∧ ∀ idx ∈ cands,
          aabbOverlapB a (caps.getD idx dummyCapsule).aabb = true →
          0 < segCapsuleDist2 px py qx qy (caps.getD idx dummyCapsule)) := by
  intro cands
  induction cands with
  | nil =>
    intro best
    simp [segdGo]
  | cons idx rest ih =>
    intro best
    rw [segdGo]
    by_cases hov : aabbOverlapB a (caps.getD idx dummyCapsule).aabb = true
    · rw [if_pos hov]
      rw [List.forall_mem_cons]
      cases best with
      | none =>
        dsimp only
        split_ifs with h0
        · simp only [posOpt, decide_eq_true_eq]
          constructor
          · intro h
            exact absurd h (not_lt.2 h0)
          · rintro ⟨_, hidx, _⟩
            exact absurd (hidx hov) (not_lt.2 h0)
        · rw [ih]
          simp only [posOpt, decide_eq_true_eq]
          have hv : 0 < segCapsuleDist2 px py qx qy (caps.getD idx dummyCapsule) :=
            not_le.1 h0
          tauto
      | some b0 =>
        dsimp only
        split_ifs with h0
        · simp only [posOpt, decide_eq_true_eq]
          constructor
          · intro h
            exact absurd h (not_lt.2 h0)
          · rintro ⟨hb0, hidx, _⟩
            exact absurd (lt_min hb0 (hidx hov)) (not_lt.2 h0)
        · rw [ih]
          simp only [posOpt, decide_eq_true_eq]
          have hmin := not_le.1 h0
          have hb0 : 0 < b0 := lt_of_lt_of_le hmin (min_le_left _ _)
          have hv : 0 < segCapsuleDist2 px py qx qy (caps.getD idx dummyCapsule) :=
            lt_of_lt_of_le hmin (min_le_right _ _)
          constructor
          · rintro ⟨_, hrest⟩
            exact ⟨hb0, fun _ => hv, hrest⟩
          · rintro ⟨_, _, hrest⟩
            exact ⟨lt_min hb0 hv, hrest⟩
    · rw [if_neg hov]
      rw [ih, List.forall_mem_cons]
      tauto

/-- The spec-side brute force: the minimum of (distance² - r²) over ALL
capsules, with no grid and no AABB filter; `none` is the empty minimum. -/
def bruteMin (px py qx qy : ℚ) (caps : List Capsule) : Option ℚ :=
  caps.foldl
    (fun best c =>
      match best with
      | none => some (segCapsuleDist2 px py qx qy c)
      | some b0 => some (min b0 (segCapsuleDist2 px py qx qy c)))
    none

/-- Sign characterization of the brute-force minimum. -/
lemma bruteMin_fold_pos_iff (px py qx qy : ℚ) :
    ∀ (caps : List Capsule) (best : Option ℚ),
      posOpt (caps.foldl
        (fun best2 c =>
          match best2 with
          | none => some (segCapsuleDist2 px py qx qy c)
          | some b0 => some (min b0 (segCapsuleDist2 px py qx qy c)))
        best) = true ↔
      (posOpt best = true ∧ ∀ c ∈ caps, 0 < segCapsuleDist2 px py qx qy c) := by
  intro caps
  induction caps with
  | nil =>
    intro best
    simp
  | cons c0 cs ih =>
    intro best
    rw [List.foldl_cons, List.forall_mem_cons]
    cases best with
    | none =>
      rw [ih]
      simp only [posOpt, decide_eq_true_eq]
      tauto
    | some b0 =>
      rw [ih]
      simp only [posOpt, decide_eq_true_eq, lt_min_iff]
      tauto

/-- Sign characterization of `bruteMin` itself. -/
lemma bruteMin_pos_iff (px py qx qy : ℚ) (caps : List Capsule) :
    posOpt (bruteMin px py qx qy caps) = true ↔
      ∀ c ∈ caps, 0 < segCapsuleDist2 px py qx qy c := by
  unfold bruteMin
  rw [bruteMin_fold_pos_iff]
  simp [posOpt]

/-- Reading a list at an in-range index ignores the default. -/
lemma getD_of_lt (l : List Capsule) (i : ℕ) (hi : i < l.length) :
    l.getD i dummyCapsule = l.get ⟨i, hi⟩ := by
  rw [List.getD_eq_getElem l dummyCapsule hi]
  rfl

/-- The inflated AABB of a segment is well-formed for a nonnegative
inflation radius. -/
lemma query_aabb_wf (px py qx qy R : ℚ) (hR : 0 ≤ R) :
    (aabbInflate (segAabb px py qx qy) R).1 ≤ (aabbInflate (segAabb px py qx qy) R).2.2.1 ∧
    (aabbInflate (segAabb px py qx qy) R).2.1 ≤ (aabbInflate (segAabb px py qx qy) R).2.2.2 := by
  unfold aabbInflate segAabb
  dsimp only
  constructor
  · linarith [min_le_max (a := px) (b := qx)]
  · linarith [min_le_max (a := py) (b := qy)]

/-- Existential characterization of the grid-filtered hit test. -/
lemma segHitsAny_iff_exists (px py qx qy : ℚ) (caps : List Capsule) (g : UniformGrid) :
    segHitsAnyCapsule px py qx qy caps g = true ↔
      ∃ idx ∈ candidatesForAabb g (aabbInflate (segAabb px py qx qy) (maxR caps)),
        aabbOverlapB (aabbInflate (segAabb px py qx qy) (maxR caps))
            (caps.getD idx dummyCapsule).aabb = true ∧
          segCapsuleDist2 px py qx qy (caps.getD idx dummyCapsule) ≤ 0 := by
  unfold segHitsAnyCapsule
  rw [List.any_eq_true]
  simp only [Bool.and_eq_true, decide_eq_true_eq]

/-- Claim C4, confirmed: the uniform grid is a pure optimization.  For
every segment and non-empty capsule set with nonnegative radii, indexed in
the grid exactly as the source builds it: (1) the grid-filtered
`seg_distance2_to_eraser` is positive iff the brute-force minimum over all
capsules of (distance² - r²) is positive; (2) `seg_hits_any_capsule` is
true iff some capsule's test is nonpositive; (3) every capsule whose
inflated AABB overlaps the query AABB is among the candidates; (4) the
candidate list is deduplicated. -/
theorem C4_theorem (px py qx qy pageW pageH r : ℚ) (caps : List Capsule)
    (hne : caps ≠ []) (hr : ∀ c ∈ caps, 0 ≤ c.r) :
    (posOpt (segDistance2ToEraser px py qx qy caps
        (buildEraserGrid pageW pageH r caps)) = true ↔
      posOpt (bruteMin px py qx qy caps) = true) ∧
    (segHitsAnyCapsule px py qx qy caps (buildEraserGrid pageW pageH r caps) = true ↔
      ∃ c ∈ caps, segCapsuleDist2 px py qx qy c ≤ 0) ∧
    (∀ (i : ℕ) (hi : i < caps.length),
      aabbOverlapB (aabbInflate (segAabb px py qx qy) (maxR caps))
          (caps.get ⟨i, hi⟩).aabb = true →
      i ∈ candidatesForAabb (buildEraserGrid pageW pageH r caps)
        (aabbInflate (segAabb px py qx qy) (maxR caps))) ∧
    (candidatesForAabb (buildEraserGrid pageW pageH r caps)
      (aabbInflate (segAabb px py qx qy) (maxR caps))).Nodup := by
  have hR : 0 ≤ maxR caps := by
    match caps, hne with
    | c :: cs, _ =>
      exact le_trans (hr c (List.mem_cons_self c cs)) (le_maxR (c :: cs) c
        (List.mem_cons_self c cs))
  have hqwf := query_aabb_wf px py qx qy (maxR caps) hR
  have hcomplete : ∀ (i : ℕ) (hi : i < caps.length),
      aabbOverlapB (aabbInflate (segAabb px py qx qy) (maxR caps))
          (caps.get ⟨i, hi⟩).aabb = true →
      i ∈ candidatesForAabb (buildEraserGrid pageW pageH r caps)
        (aabbInflate (segAabb px py qx qy) (maxR caps)) := by
    intro i hi hov
    exact overlap_mem_candidates pageW pageH r caps _ i hi hqwf
      (hr _ (List.get_mem caps i hi)) hov
  refine ⟨?_, ?_, hcomplete, dedupAux_nodup _ []⟩
  · rw [bruteMin_pos_iff]
    show posOpt (segdGo px py qx qy caps _ (candidatesForAabb _ _) none) = true ↔ _
    rw [segdGo_pos_iff]
    constructor
    · rintro ⟨_, hall⟩ c hc
      obtain ⟨i, hi, rfl⟩ := List.mem_iff_getElem.1 hc
      cases hov : aabbOverlapB (aabbInflate (segAabb px py qx qy) (maxR caps))
          (caps.get ⟨i, hi⟩).aabb with
      | false =>
        exact segCapsuleDist2_pos_of_no_overlap px py qx qy (maxR caps) _ hR
          (hr _ (List.get_mem caps i hi)) hov
      | true =>
        have hmem := hcomplete i hi hov
        have := hall i hmem (by rw [getD_of_lt caps i hi]; exact hov)
        rw [getD_of_lt caps i hi] at this
        exact this
    · intro hall
      refine ⟨rfl, ?_⟩
      intro idx hidx _
      have hlt := candidates_lt_length pageW pageH r caps _ idx hidx
      rw [getD_of_lt caps idx hlt]
      exact hall _ (List.get_mem caps idx hlt)
  · rw [segHitsAny_iff_exists]
    constructor
    · rintro ⟨idx, hidx, _, hle⟩
      have hlt := candidates_lt_length pageW pageH r caps _ idx hidx
      rw [getD_of_lt caps idx hlt] at hle
      exact ⟨caps.get ⟨idx, hlt⟩, List.get_mem caps idx hlt, hle⟩
    · rintro ⟨c, hc, hle⟩
      obtain ⟨i, hi, rfl⟩ := List.mem_iff_getElem.1 hc
      cases hov : aabbOverlapB (aabbInflate (segAabb px py qx qy) (maxR caps))
          (caps.get ⟨i, hi⟩).aabb with
      | false =>
        have hpos := segCapsuleDist2_pos_of_no_overlap px py qx qy (maxR caps) _ hR
          (hr _ (List.get_mem caps i hi)) hov
        rw [List.get_eq_getElem] at hpos
        linarith
      | true =>
        refine ⟨i, hcomplete i hi hov, ?_, ?_⟩
        · rw [getD_of_lt caps i hi]
          exact hov
        · rw [getD_of_lt caps i hi]
          exact hle

/-- Claim C4, witness: the equivalences applied to a concrete capsule set
and segment (a capsule the segment misses). -/
theorem C4_witness :
    (posOpt (segDistance2ToEraser 0 0 1 0 [⟨(3, 0), (3, 2), 1⟩]
        (buildEraserGrid 16 16 1 [⟨(3, 0), (3, 2), 1⟩])) = true ↔
      posOpt (bruteMin 0 0 1 0 [⟨(3, 0), (3, 2), 1⟩]) = true) ∧
    (segHitsAnyCapsule 0 0 1 0 [⟨(3, 0), (3, 2), 1⟩]
        (buildEraserGrid 16 16 1 [⟨(3, 0), (3, 2), 1⟩]) = true ↔
      ∃ c ∈ [(⟨(3, 0), (3, 2), 1⟩ : Capsule)], segCapsuleDist2 0 0 1 0 c ≤ 0) ∧
    (∀ (i : ℕ) (hi : i < [(⟨(3, 0), (3, 2), 1⟩ : Capsule)].length),
      aabbOverlapB (aabbInflate (segAabb 0 0 1 0) (maxR [⟨(3, 0), (3, 2), 1⟩]))
          ([(⟨(3, 0), (3, 2), 1⟩ : Capsule)].get ⟨i, hi⟩).aabb = true →
      i ∈ candidatesForAabb (buildEraserGrid 16 16 1 [⟨(3, 0), (3, 2), 1⟩])
        (aabbInflate (segAabb 0 0 1 0) (maxR [⟨(3, 0), (3, 2), 1⟩]))) ∧
    (candidatesForAabb (buildEraserGrid 16 16 1 [⟨(3, 0), (3, 2), 1⟩])
      (aabbInflate (segAabb 0 0 1 0) (maxR [⟨(3, 0), (3, 2), 1⟩]))).Nodup :=
  C4_theorem 0 0 1 0 16 16 1 [⟨(3, 0), (3, 2), 1⟩] (by simp)
    (by
      intro c hc
      rw [List.mem_singleton.1 hc]
      norm_num)

end OpenAssess
